import Mathlib

/-!
Verification development for the two Cloudflare Access scripts of this
repository, `src/enable_public_api.py` and `src/fix_zero_trust.py`.

The scripts are thin sequential drivers over the vendor REST API.  We give a
shallow embedding: the remote account state is a value of type `AccState`
(the list of Access applications, each carrying its policies, plus a counter
from which the server mints fresh identifiers), and every HTTP call the
scripts issue is reflected both as a state transformation (the server-side
effect of the call) and as an element of an operation trace (`Op`), so that
theorems can speak about which requests a run performs.  Console output of
`enable_public_api.py` is reflected as a `Msg` trace.

The `request` helper that both scripts define (identical in the two files)
is embedded separately as `request`, over an abstract transport outcome
(`HttpOutcome`), including its header table, its body-attachment conditional
(`if data:`) and its `except urllib.error.HTTPError` handler.

The success-path runs of the two `main` procedures are embedded as
`enableMain` and `fixMain`; the failure behaviour of the unguarded
`request(...)['result']` call sites is embedded by `enableMainF` and
`cleanupGoF`, where a listing request may return `none` (Python `None`) and
the subscript on it is `pySubscript`, raising `PyExc.typeError` exactly as
`None['result']` raises `TypeError` in Python.
-/

/-- A JSON value, the decoding target of `json.loads` on response bodies and
the kind of structured payload (`dict`) the scripts pass to `request`. -/
inductive JVal where
  | null
  | jbool (b : Bool)
  | jnum (n : Int)
  | jstr (s : String)
  | jarr (elems : List JVal)
  | jobj (fields : List (String × JVal))

/-- A Python dict payload as handed to `request(method, url, data)`. -/
abbrev Payload := List (String × JVal)

/-- An include rule of an Access policy, as built literally by the scripts:
`{"everyone": {}}`, `{"group": {"id": ...}}`, or
`{"service_token": {"token_id": ...}}`. -/
inductive Rule where
  | everyone
  | group (gid : String)
  | serviceToken (tokenId : String)
deriving DecidableEq, Repr

/-- An Access policy: opaque identifier `pid` (the JSON `id` field), `name`,
`decision`, and its include rules. -/
structure Policy where
  pid : Nat
  name : String
  decision : String
  includeRules : List Rule
deriving DecidableEq, Repr

/-- An Access application: opaque identifier `aid` (the JSON `id` field),
display `name`, `domain`, and the policies attached to it server-side. -/
structure App where
  aid : Nat
  name : String
  domain : String
  policies : List Policy
deriving DecidableEq, Repr

/-- The remote account state: the list of applications (listing order is the
order the `GET` endpoints return) and the counter from which the server
mints fresh opaque identifiers for created objects. -/
structure AccState where
  apps : List App
  nextId : Nat
deriving DecidableEq, Repr

/-- One HTTP request issued by a script, in structured form.  URLs of the
form `{BASE_URL}...` are abstracted to their endpoint plus path parameters:
`GET {BASE_URL}` and `GET {BASE_URL}?per_page=100` are `getApps`,
`GET {BASE_URL}/{aid}/policies` is `getPolicies aid`, and so on. -/
inductive Op where
  | getApps
  | getPolicies (aid : Nat)
  | postApp (name domain appType sessionDuration : String)
  | postPolicy (aid : Nat) (name decision : String) (incl : List Rule)
  | putPolicy (aid : Nat) (pid : Nat) (name decision : String) (incl : List Rule)
  | deletePolicy (aid : Nat) (pid : Nat)
deriving DecidableEq, Repr

/-- Whether an operation is a write call (POST, PUT or DELETE). -/
def Op.isWrite : Op → Bool
  | .getApps => false
  | .getPolicies _ => false
  | _ => true

/-- Whether an operation is the application-creating POST. -/
def Op.isPostApp : Op → Bool
  | .postApp _ _ _ _ => true
  | _ => false

/-- Whether an operation is a policy-creating POST. -/
def Op.isPostPolicy : Op → Bool
  | .postPolicy _ _ _ _ => true
  | _ => false

/-- Whether an operation is a policy-creating POST for the given name. -/
def Op.isPostPolicyNamed (n : String) : Op → Bool
  | .postPolicy _ n2 _ _ => n2 == n
  | _ => false

/-- Whether an operation is a policy-updating PUT. -/
def Op.isPutPolicy : Op → Bool
  | .putPolicy _ _ _ _ _ => true
  | _ => false

/-- Whether an operation is a policy DELETE. -/
def Op.isDeletePolicy : Op → Bool
  | .deletePolicy _ _ => true
  | _ => false

/-- Console messages printed by `enable_public_api.py` (`print` calls of its
`main`), in structured form. -/
inductive Msg where
  | banner
  | notFound
  | foundApp (name : String) (aid : Nat)
  | currentPolicies (names : List String)
  | updatingPolicy (n : String)
  | creatingPolicy (n : String)
  | successMsg
deriving DecidableEq, Repr

/-- A Python exception escaping the scripts.  `typeError` is the
`TypeError: 'NoneType' object is not subscriptable` raised by
`request(...)['result']` when `request` returned `None`; `uncaught` is a
transport-level `urllib.error.URLError` (not an `HTTPError`), which the
`except urllib.error.HTTPError` clause does not catch. -/
inductive PyExc where
  | typeError
  | uncaught
deriving DecidableEq, Repr

/-- Outcome of one HTTP exchange at the transport layer, the environment of
one `urllib.request.urlopen` call: a 2xx response whose body decodes to a
JSON value, an HTTP error status with its raw body, or a transport failure
(connection refused, DNS, TLS, ...) that raises `urllib.error.URLError`. -/
inductive HttpOutcome where
  | success (v : JVal)
  | httpError (code : Nat) (body : String)
  | transportError

/-- `ACCOUNT_ID` constant shared by both scripts (line 6 of each). -/
def ACCOUNT_ID : String := "0f6a82c906336fc275932bf543fba961"

/-- `TOKEN` constant shared by both scripts (line 7 of each). -/
def TOKEN : String := "Fleow80btRSmawwtROaS2u0mUlY_C47YJKmJGBc5"

/-- `BASE_URL` constant shared by both scripts (line 8 of each). -/
def BASE_URL : String :=
  "https://api.cloudflare.com/client/v4/accounts/" ++ ACCOUNT_ID ++ "/access/apps"

/-- The fixed `HEADERS` dict shared by both scripts (lines 10-13). -/
def HEADERS : List (String × String) :=
  [("Authorization", "Bearer " ++ TOKEN), ("Content-Type", "application/json")]

/-- The request object `urllib.request.Request(url, method=..., headers=...)`
together with the body attached to it (`req.data`), kept structured: the
`json.dumps` serialization is injective on dict payloads, so we record the
payload itself where the script records its serialization. -/
structure PyReq where
  method : String
  url : String
  headers : List (String × String)
  body : Option Payload

/-- Pieces of the diagnostic line `f"Error {method} {url}: {body}"`. -/
def errPrefix : String := "Error "

/-- Single-space separator of the diagnostic line. -/
def spaceSep : String := " "

/-- Colon separator of the diagnostic line. -/
def colonSep : String := ": "

/-- Embedding of `request(method, url, data=None)` (lines 15-29 of
`enable_public_api.py`, identically lines 18-34 of `fix_zero_trust.py`).
Returns the request object that was sent (with its headers and its
conditionally attached body: `if data:` attaches a body only for a truthy,
i.e. nonempty, dict), the Python-level result — decoded JSON on success,
`None` after logging on `urllib.error.HTTPError`, and an uncaught propagated
exception on any other transport error — and the list of printed
diagnostics. -/
def request (method url : String) (data : Option Payload) (outcome : HttpOutcome) :
    PyReq × Except PyExc (Option JVal) × List String :=
  let body : Option Payload :=
    match data with
    | none => none
    | some d => if d.isEmpty then none else some d
  let req : PyReq := { method := method, url := url, headers := HEADERS, body := body }
  match outcome with
  | .success v => (req, .ok (some v), [])
  | .httpError _ b =>
      (req, .ok none, [errPrefix ++ method ++ spaceSep ++ url ++ colonSep ++ b])
  | .transportError => (req, .error .uncaught, [])

/-- Embedding of Python subscripting `resp['result']` where `resp` is either
a decoded envelope (modelled as the carried result value directly) or
`None`: `None['result']` raises `TypeError`. -/
def pySubscript {α : Type} (resp : Option α) : Except PyExc α :=
  match resp with
  | none => .error .typeError
  | some v => .ok v

/-- Embedding of the `next((a for a in apps if a['domain'] == d), None)`
lookups (line 36 of `enable_public_api.py`, line 41 of
`fix_zero_trust.py`). -/
def findByDomain (apps : List App) (d : String) : Option App :=
  apps.find? (fun a => a.domain == d)

/-- Embedding of the `next((p for p in policies if p['name'] == n), None)`
lookup (line 50 of `enable_public_api.py`). -/
def findPolicyByName (ps : List Policy) (n : String) : Option Policy :=
  ps.find? (fun p => p.name == n)

/-- Server-side semantics of `GET {BASE_URL}/{aid}/policies`: the policies of
the application with that identifier (empty if no such application; in every
run we study the identifier comes from the listing, so the application
exists). -/
def getPoliciesOf (st : AccState) (aid : Nat) : List Policy :=
  match st.apps.find? (fun a => a.aid == aid) with
  | some a => a.policies
  | none => []

/-- Per-application updater of the server-side write semantics: transform
the policy list of the application with the given identifier, leave every
other application untouched. -/
def updApp (aid : Nat) (f : List Policy → List Policy) (a : App) : App :=
  if a.aid == aid then { a with policies := f a.policies } else a

/-- Apply a transformation to the policy list of the application(s) with the
given identifier. -/
def applyToApp (st : AccState) (aid : Nat) (f : List Policy → List Policy) : AccState :=
  { st with apps := st.apps.map (updApp aid f) }

/-- Server-side semantics of `PUT .../policies/{pid}` on a policy list:
replace the named fields of the policy with that identifier. -/
def updatePolicyIn (ps : List Policy) (pid : Nat) (n d : String) (r : List Rule) :
    List Policy :=
  ps.map (fun p =>
    if p.pid == pid then { p with name := n, decision := d, includeRules := r } else p)

/-- Server-side semantics of `DELETE .../policies/{pid}` on a policy list. -/
def deletePolicyIn (ps : List Policy) (pid : Nat) : List Policy :=
  ps.filter (fun p => !(p.pid == pid))

/-- Server-side effect of `PUT {BASE_URL}/{aid}/policies/{pid}`. -/
def putPolicyState (st : AccState) (aid pid : Nat) (n d : String) (r : List Rule) :
    AccState :=
  applyToApp st aid (fun l => updatePolicyIn l pid n d r)

/-- Server-side effect of `POST {BASE_URL}/{aid}/policies`: the server mints
a fresh identifier for the created policy and appends it to the listing. -/
def postPolicyState (st : AccState) (aid : Nat) (n d : String) (r : List Rule) :
    AccState :=
  { apps := (applyToApp st aid (fun l => l ++ [Policy.mk st.nextId n d r])).apps,
    nextId := st.nextId + 1 }

/-- Target domain of `enable_public_api.py` (its line 36). -/
def apiDomain : String := "api.raydoug.com"

/-- `policy_name = "Public Access"` (line 49 of `enable_public_api.py`). -/
def paName : String := "Public Access"

/-- Decision of the public-access policy. -/
def bypassStr : String := "bypass"

/-- Decision of the two allow policies of `fix_zero_trust.py`. -/
def allowStr : String := "allow"

/-- Include rule `[{"everyone": {}}]` of the public-access policy. -/
def bypassIncl : List Rule := [Rule.everyone]

/-- Steps 2-3 of `enable_public_api.py` `main` (lines 44-67): given the
located application and its listed policies, update the `Public Access`
policy in place if a policy of that name exists, otherwise create it. -/
def enableUpsert (st : AccState) (app : App) (ps : List Policy) :
    AccState × List Op × List Msg :=
  match findPolicyByName ps paName with
  | some ep =>
      (putPolicyState st app.aid ep.pid paName bypassStr bypassIncl,
       [Op.getApps, Op.getPolicies app.aid,
        Op.putPolicy app.aid ep.pid paName bypassStr bypassIncl],
       [Msg.banner, Msg.foundApp app.name app.aid,
        Msg.currentPolicies (ps.map (fun p => p.name)),
        Msg.updatingPolicy paName, Msg.successMsg])
  | none =>
      (postPolicyState st app.aid paName bypassStr bypassIncl,
       [Op.getApps, Op.getPolicies app.aid,
        Op.postPolicy app.aid paName bypassStr bypassIncl],
       [Msg.banner, Msg.foundApp app.name app.aid,
        Msg.currentPolicies (ps.map (fun p => p.name)),
        Msg.creatingPolicy paName, Msg.successMsg])

/-- Embedding of `main` of `enable_public_api.py` (lines 31-67) on a run in
which every HTTP request succeeds: list the applications, locate the one
with domain `api.raydoug.com` (report and return early if absent), list its
policies, and upsert the `Public Access` bypass-everyone policy.  Returns
the final remote state, the trace of requests issued, and the console
messages printed. -/
def enableMain (st : AccState) : AccState × List Op × List Msg :=
  match findByDomain st.apps apiDomain with
  | none => (st, [Op.getApps], [Msg.banner, Msg.notFound])
  | some app => enableUpsert st app (getPoliciesOf st app.aid)

/-- Embedding of `main` of `enable_public_api.py` in which the two listing
requests may return `None` (argument flags `failApps`, `failPols`): each
`request(...)['result']` call site is `pySubscript` of the possibly-absent
response, so a failed listing raises `TypeError` and the run terminates with
that exception. -/
def enableMainF (failApps failPols : Bool) (st : AccState) :
    Except PyExc (AccState × List Op × List Msg) :=
  match pySubscript (if failApps then none else some st.apps) with
  | .error e => .error e
  | .ok apps =>
    match findByDomain apps apiDomain with
    | none => .ok (st, [Op.getApps], [Msg.banner, Msg.notFound])
    | some app =>
      match pySubscript (if failPols then none else some (getPoliciesOf st app.aid)) with
      | .error e => .error e
      | .ok ps => .ok (enableUpsert st app ps)

/-- Target domain of the `Supabase Studio` app in `fix_zero_trust.py`. -/
def studioDomain : String := "studio.raydoug.com"

/-- Display name of the created application (line 46 of
`fix_zero_trust.py`). -/
def studioAppName : String := "Supabase Studio"

/-- `type` field of the created application. -/
def selfHostedStr : String := "self_hosted"

/-- `session_duration` field of the created application. -/
def sessionStr : String := "24h"

/-- `ADMIN_GROUP_ID` constant (line 15 of `fix_zero_trust.py`). -/
def ADMIN_GROUP_ID : String := "9e16bff0-8e9d-4a7a-aaab-07541f88f8e4"

/-- `SERVICE_TOKEN_ID` constant (line 16 of `fix_zero_trust.py`). -/
def SERVICE_TOKEN_ID : String := "15a661a2-bc33-409d-86d9-ffcc217ffdce"

/-- Name of the first allow policy. -/
def aaName : String := "Allow Admins"

/-- Name of the second allow policy. -/
def asName : String := "Allow Service"

/-- Include rule of the `Allow Admins` policy. -/
def adminIncl : List Rule := [Rule.group ADMIN_GROUP_ID]

/-- Include rule of the `Allow Service` policy. -/
def serviceIncl : List Rule := [Rule.serviceToken SERVICE_TOKEN_ID]

/-- Policy-provisioning part of phase 1 of `fix_zero_trust.py` `main`
(lines 55-75): list the policies of the studio application once, then POST
`Allow Admins` if no listed policy has that name, then POST `Allow Service`
if no listed policy has that name (the check reuses the same stale listing,
as the script does).  `ops0` is the operation trace accumulated so far. -/
def fixPolicies (st : AccState) (aid : Nat) (ops0 : List Op) : AccState × List Op :=
  let ps := getPoliciesOf st aid
  let r1 :=
    if ps.any (fun p => p.name == aaName) then (st, ([] : List Op))
    else (postPolicyState st aid aaName allowStr adminIncl,
          [Op.postPolicy aid aaName allowStr adminIncl])
  let r2 :=
    if ps.any (fun p => p.name == asName) then (r1.1, ([] : List Op))
    else (postPolicyState r1.1 aid asName allowStr serviceIncl,
          [Op.postPolicy aid asName allowStr serviceIncl])
  (r2.1, ops0 ++ Op.getPolicies aid :: (r1.2 ++ r2.2))

/-- Phase 1 of `fix_zero_trust.py` `main` (lines 36-75): list applications,
locate the one with domain `studio.raydoug.com`, create it (fresh identifier
from the server, initially with no policies) if absent, then ensure the two
allow policies. -/
def fixPhase1 (st : AccState) : AccState × List Op :=
  match findByDomain st.apps studioDomain with
  | some studio => fixPolicies st studio.aid [Op.getApps]
  | none =>
      let st1 : AccState :=
        { apps := st.apps ++ [App.mk st.nextId studioAppName studioDomain []],
          nextId := st.nextId + 1 }
      fixPolicies st1 st.nextId
        [Op.getApps, Op.postApp studioAppName studioDomain selfHostedStr sessionStr]

/-- The exact policy name targeted by the cleanup phase (line 87 of
`fix_zero_trust.py`). -/
def macName : String := "Macbook dual-stack Bypass"

/-- Lower-case search keys of the secondary (dead) matching branch. -/
def bypassKey : String := "bypass"

/-- Lower-case search key `"ip"` of the secondary (dead) matching branch. -/
def ipKey : String := "ip"

/-- Whether `pat` occurs as a substring of `s` (Python `pat in s`). -/
def containsSub (s pat : String) : Bool :=
  decide (List.IsInfix pat.data s.data)

/-- Python `str.lower()`: lower-case every character (identical to
`String.toLower`, written over the character list so it evaluates by
kernel reduction). -/
def strLower (s : String) : String := String.mk (s.data.map Char.toLower)

/-- The secondary matching condition of the cleanup phase (line 90 of
`fix_zero_trust.py`): `"bypass" in policy['name'].lower() and "ip" in
policy['name'].lower()`.  Its branch body is `pass`. -/
def secondaryMatch (n : String) : Bool :=
  containsSub (strLower n) bypassKey && containsSub (strLower n) ipKey

/-- Inner loop of the cleanup phase (lines 86-93 of `fix_zero_trust.py`):
walk the snapshot of the application's policy listing; DELETE a policy whose
name is exactly `macName`; the secondary `elif` branch is `pass`, i.e. the
identity on both state and trace, exactly as in the source. -/
def cleanupPolicies (aid : Nat) (ps : List Policy) (s : AccState) : AccState × List Op :=
  match ps with
  | [] => (s, [])
  | p :: rest =>
    if p.name == macName then
      let s1 := applyToApp s aid (fun l => deletePolicyIn l p.pid)
      let r := cleanupPolicies aid rest s1
      (r.1, Op.deletePolicy aid p.pid :: r.2)
    else if secondaryMatch p.name then
      cleanupPolicies aid rest s
    else
      cleanupPolicies aid rest s

/-- One iteration of the outer cleanup loop (lines 82-93): list the
application's policies from the live state, then run the inner loop over
that snapshot. -/
def cleanupApp (s : AccState) (aid : Nat) : AccState × List Op :=
  let r := cleanupPolicies aid (getPoliciesOf s aid) s
  (r.1, Op.getPolicies aid :: r.2)

/-- The outer cleanup loop of phase 2 (lines 82-93): iterate over the
snapshot of the application listing taken at line 80, processing each
application against the live, evolving state. -/
def cleanupGo (l : List App) (s : AccState) : AccState × List Op :=
  match l with
  | [] => (s, [])
  | a :: rest =>
    let r1 := cleanupApp s a.aid
    let r2 := cleanupGo rest r1.1
    (r2.1, r1.2 ++ r2.2)

/-- Fallible variant of the outer cleanup loop: the per-application policy
listing request may return `None` (when `fail i` holds for the position `i`
of the application in the iteration), in which case the
`request(...)['result']` subscript raises `TypeError` and the whole
remaining iteration is abandoned. -/
def cleanupGoF (fail : Nat → Bool) (i : Nat) (l : List App) (s : AccState) :
    Except PyExc AccState × List Op :=
  match l with
  | [] => (.ok s, [])
  | a :: rest =>
    match pySubscript (if fail i then none else some (getPoliciesOf s a.aid)) with
    | .error e => (.error e, [Op.getPolicies a.aid])
    | .ok ps =>
      let r1 := cleanupPolicies a.aid ps s
      let r2 := cleanupGoF fail (i + 1) rest r1.1
      (r2.1, Op.getPolicies a.aid :: (r1.2 ++ r2.2))

/-- Embedding of `main` of `fix_zero_trust.py` (lines 36-95) on a run in
which every HTTP request succeeds: phase 1, then the refreshed application
listing (line 80), then the cleanup loop over that snapshot. -/
def fixMain (st : AccState) : AccState × List Op :=
  let r1 := fixPhase1 st
  let r2 := cleanupGo r1.1.apps r1.1
  (r2.1, r1.2 ++ Op.getApps :: r2.2)

/-- The operation trace the cleanup phase is expected to produce when run
over snapshot `l` against a fixed state `s`: for each application, one
policy listing followed by one DELETE per listed policy whose name is
exactly the cleanup target. -/
def cleanupOpsSpec (s : AccState) (l : List App) : List Op :=
  match l with
  | [] => []
  | a :: rest =>
      (Op.getPolicies a.aid ::
        ((getPoliciesOf s a.aid).filter (fun p => p.name == macName)).map
          (fun p => Op.deletePolicy a.aid p.pid)) ++ cleanupOpsSpec s rest

/-- Well-formedness of a remote state, the invariants the real server
guarantees: application identifiers are pairwise distinct, policy
identifiers are pairwise distinct within an application, and every minted
identifier is below the freshness counter. -/
abbrev wf (st : AccState) : Prop :=
  (st.apps.map (fun a => a.aid)).Nodup ∧
  (∀ a ∈ st.apps, a.aid < st.nextId) ∧
  (∀ a ∈ st.apps, (a.policies.map (fun p => p.pid)).Nodup) ∧
  (∀ a ∈ st.apps, ∀ p ∈ a.policies, p.pid < st.nextId)

/-- Strip the policies the cleanup phase removes from an application. -/
def filterMac (a : App) : App :=
  { a with policies := a.policies.filter (fun p => !(p.name == macName)) }

/-- All policy identifiers present in a state, in listing order. -/
def statePids (st : AccState) : List Nat :=
  (st.apps.map (fun a => a.policies.map (fun p => p.pid))).flatten

/-! ### Concrete inputs for counterexamples and witnesses -/

/-- Method string of the C1 counterexample. -/
def getMeth : String := "GET"

/-- URL of the C1 counterexample. -/
def cexUrl : String := "https://api.cloudflare.com/client/v4/x"

/-- Concrete state for the C2 witness: the target application exists and has
no policies yet. -/
def stW2 : AccState :=
  { apps := [{ aid := 0, name := "API", domain := apiDomain, policies := [] }],
    nextId := 1 }

/-- The updated form of the C2 witness application after the first run. -/
def appX2u : App :=
  { aid := 0, name := "API", domain := apiDomain,
    policies := [{ pid := 1, name := paName, decision := bypassStr,
                   includeRules := bypassIncl }] }

/-- The application of the C2 witness state. -/
def appX2 : App := { aid := 0, name := "API", domain := apiDomain, policies := [] }

/-- The stale `Public Access` policy of the C3 witness state. -/
def polX3 : Policy :=
  { pid := 5, name := paName, decision := allowStr, includeRules := [] }

/-- The application of the C3 witness state. -/
def appX3 : App :=
  { aid := 0, name := "API", domain := apiDomain, policies := [polX3] }

/-- Concrete state for the C3 witness: the target application exists and
already has a `Public Access` policy (with a stale decision). -/
def stW3 : AccState := { apps := [appX3], nextId := 6 }

/-- Concrete state for the C4 witness: no application at all, so the first
run creates everything and the second run creates nothing. -/
def stW4 : AccState := { apps := [], nextId := 0 }

/-- Concrete state for the C5 witness: one application carrying both the
targeted policy and an unrelated one. -/
def stW5 : AccState :=
  { apps := [{ aid := 0, name := "Home", domain := "home.raydoug.com",
               policies := [{ pid := 1, name := macName, decision := bypassStr,
                              includeRules := [] },
                            { pid := 2, name := aaName, decision := allowStr,
                              includeRules := [] }] }],
    nextId := 3 }

/-- Concrete state for the C6 witness: no application at all. -/
def stW6 : AccState := { apps := [], nextId := 0 }

/-- Application list for the C7 witness: two applications, the second of
which will see its policy listing fail. -/
def lW7 : List App :=
  [{ aid := 0, name := "A", domain := "a.raydoug.com", policies := [] },
   { aid := 1, name := "B", domain := "b.raydoug.com", policies := [] },
   { aid := 2, name := "C", domain := "c.raydoug.com", policies := [] }]

/-- Concrete state for the C7 witness. -/
def stW7 : AccState := { apps := lW7, nextId := 3 }

/-- Failure pattern for the C7 witness: exactly the listing request of the
application at position 1 of the iteration returns `None`. -/
def failW : Nat → Bool := fun j => j == 1

/-- The policy of the C8 witness: its name matches the secondary (dead)
condition but not the exact cleanup target. -/
def polX8 : Policy :=
  { pid := 1, name := "Home IP Bypass", decision := bypassStr, includeRules := [] }

/-- The application of the C8 witness. -/
def appX8 : App :=
  { aid := 0, name := "Home", domain := "home.raydoug.com", policies := [polX8] }

/-- Concrete state for the C8 witness. -/
def stW8 : AccState := { apps := [appX8], nextId := 2 }

/-- First application of the C9 witness (matching the target domain). -/
def appW1 : App := { aid := 1, name := "API first", domain := apiDomain, policies := [] }

/-- Duplicate application of the C9 witness (same domain, later in order). -/
def appW2 : App := { aid := 2, name := "API dup", domain := apiDomain, policies := [] }

/-- Non-matching application of the C9 witness. -/
def appW0 : App := { aid := 0, name := "Studio", domain := studioDomain, policies := [] }

/-! ### Generic list helpers -/

/-- `find?` returns the first match: later elements, duplicates included,
are ignored. -/
theorem find?_first_match {α : Type} (p : α → Bool) (l1 : List α) (a : α) (l2 : List α)
    (h1 : ∀ x ∈ l1, p x = false) (h2 : p a = true) :
    (l1 ++ a :: l2).find? p = some a := by
  induction l1 with
  | nil => exact List.find?_cons_of_pos _ h2
  | cons x xs ih =>
      rw [List.cons_append, List.find?_cons_of_neg]
      · exact ih (fun y hy => h1 y (List.mem_cons_of_mem x hy))
      · simp [h1 x (List.mem_cons_self x xs)]

/-! ### Claim C1: error handling of the API client -/

/-- C1 (amended): on a response with an HTTP error status, `request` logs a
diagnostic containing the method, the URL and the response body, and returns
the null sentinel; on success it returns the decoded JSON response body; but
on a transport-level error that is not an HTTP status error the exception
propagates uncaught instead of a null being returned. -/
theorem c1_request_error_handling (method url : String) (data : Option Payload)
    (code : Nat) (body : String) :
    (request method url data (HttpOutcome.httpError code body)).2.1 = Except.ok none ∧
    (request method url data (HttpOutcome.httpError code body)).2.2 =
      [errPrefix ++ method ++ spaceSep ++ url ++ colonSep ++ body] ∧
    containsSub (errPrefix ++ method ++ spaceSep ++ url ++ colonSep ++ body) method = true ∧
    containsSub (errPrefix ++ method ++ spaceSep ++ url ++ colonSep ++ body) url = true ∧
    containsSub (errPrefix ++ method ++ spaceSep ++ url ++ colonSep ++ body) body = true ∧
    (∀ v : JVal, (request method url data (HttpOutcome.success v)).2.1 =
      Except.ok (some v)) ∧
    (request method url data HttpOutcome.transportError).2.1 =
      Except.error PyExc.uncaught := by
  refine ⟨rfl, rfl, ?_, ?_, ?_, fun v => rfl, rfl⟩
  · unfold containsSub
    rw [decide_eq_true_eq]
    refine ⟨errPrefix.data, spaceSep.data ++ (url.data ++ (colonSep.data ++ body.data)), ?_⟩
    simp [List.append_assoc]
  · unfold containsSub
    rw [decide_eq_true_eq]
    refine ⟨errPrefix.data ++ (method.data ++ spaceSep.data), colonSep.data ++ body.data, ?_⟩
    simp [List.append_assoc]
  · unfold containsSub
    rw [decide_eq_true_eq]
    refine ⟨errPrefix.data ++ (method.data ++ (spaceSep.data ++ (url.data ++ colonSep.data))),
      [], ?_⟩
    simp [List.append_assoc]

/-- C1 counterexample: on a transport error (a `urllib.error.URLError` that
is not an `HTTPError`, e.g. a refused connection) the claim says `request`
returns the null sentinel rather than raising; in fact the exception
propagates uncaught and no null is returned. -/
theorem c1_transport_error_raises :
    (request getMeth cexUrl none HttpOutcome.transportError).2.1 =
      Except.error PyExc.uncaught ∧
    ¬((request getMeth cexUrl none HttpOutcome.transportError).2.1 =
      Except.ok none) := by
  exact ⟨rfl, fun h => Except.noConfusion h⟩

/-! ### Claim C6: absent target application -/

/-- C6: when no listed application has the target domain, the public-access
enabler prints the not-found message, returns early with the state
untouched, and its trace contains the single listing request and no write
call. -/
theorem c6_absent_app_no_writes (st : AccState)
    (h : findByDomain st.apps apiDomain = none) :
    enableMain st = (st, [Op.getApps], [Msg.banner, Msg.notFound]) ∧
    Msg.notFound ∈ (enableMain st).2.2 ∧
    (enableMain st).2.1.all (fun o => !o.isWrite) = true := by
  have he : enableMain st = (st, [Op.getApps], [Msg.banner, Msg.notFound]) := by
    unfold enableMain
    rw [h]
  refine ⟨he, ?_, ?_⟩ <;> rw [he]
  · simp
  · rfl

/-- Witness for C6 at a concrete state with no matching application. -/
theorem c6_witness :
    findByDomain stW6.apps apiDomain = none ∧
    enableMain stW6 = (stW6, [Op.getApps], [Msg.banner, Msg.notFound]) := by
  exact ⟨rfl, (c6_absent_app_no_writes stW6 rfl).1⟩

/-! ### Claim C9: lookups take the first match -/

/-- C9: the domain lookup and the policy-name lookup of the scripts both
select the first occurrence in listing order; any later duplicate is
ignored. -/
theorem c9_first_match_selected :
    (∀ (l1 l2 : List App) (a : App) (d : String),
        (∀ x ∈ l1, (x.domain == d) = false) → (a.domain == d) = true →
        findByDomain (l1 ++ a :: l2) d = some a) ∧
    (∀ (l1 l2 : List Policy) (p : Policy) (n : String),
        (∀ x ∈ l1, (x.name == n) = false) → (p.name == n) = true →
        findPolicyByName (l1 ++ p :: l2) n = some p) := by
  constructor
  · intro l1 l2 a d h1 h2
    exact find?_first_match _ l1 a l2 h1 h2
  · intro l1 l2 p n h1 h2
    exact find?_first_match _ l1 p l2 h1 h2

/-- Witness for C9: with two listed applications sharing the target domain,
the lookup returns the first and ignores the duplicate. -/
theorem c9_witness :
    (∀ x ∈ [appW0], (x.domain == apiDomain) = false) ∧
    (appW1.domain == apiDomain) = true ∧
    findByDomain ([appW0] ++ appW1 :: [appW2]) apiDomain = some appW1 := by
  refine ⟨by decide, by decide, ?_⟩
  exact c9_first_match_selected.1 [appW0] [appW2] appW1 apiDomain (by decide) (by decide)

/-! ### Claim C10: body attached only for truthy payloads -/

/-- C10: `request` attaches a serialized body only when the payload is
truthy, so no payload, a null payload, and an empty dict payload all send a
request without a body (and are indistinguishable), while a nonempty dict
payload is attached. -/
theorem c10_body_only_when_truthy (method url : String) (o : HttpOutcome) :
    (request method url none o).1.body = none ∧
    (request method url (some []) o).1.body = none ∧
    (request method url none o).1 = (request method url (some []) o).1 ∧
    ∀ (kv : String × JVal) (d : Payload),
      (request method url (some (kv :: d)) o).1.body = some (kv :: d) := by
  cases o <;> exact ⟨rfl, rfl, rfl, fun kv d => rfl⟩

/-! ### State-model helper lemmas -/

/-- In a list with pairwise-distinct keys, the `find?` by the key of a
member returns that member. -/
theorem find?_key_of_mem {α : Type} (key : α → Nat) (l : List α)
    (h : (l.map key).Nodup) {a : α} (ha : a ∈ l) :
    l.find? (fun x => key x == key a) = some a := by
  induction l with
  | nil => cases ha
  | cons b tl ih =>
      rw [List.map_cons, List.nodup_cons] at h
      rcases List.mem_cons.mp ha with hba | ha2
      · subst hba
        exact List.find?_cons_of_pos _ (by simp)
      · by_cases hb : key b = key a
        · exact absurd (hb ▸ List.mem_map_of_mem key ha2) h.1
        · rw [List.find?_cons_of_neg _ (by simp [hb])]
          exact ih h.2 ha2

/-- With distinct application identifiers, listing the policies of a member
application returns exactly its policies. -/
theorem getPoliciesOf_of_mem (st : AccState) (a : App)
    (hnd : (st.apps.map (fun x => x.aid)).Nodup) (ha : a ∈ st.apps) :
    getPoliciesOf st a.aid = a.policies := by
  unfold getPoliciesOf
  rw [find?_key_of_mem (fun x => x.aid) st.apps hnd ha]

/-- Domain lookup commutes with any domain-preserving transformation of the
listing. -/
theorem findByDomain_map (l : List App) (g : App → App) (d : String)
    (hg : ∀ a, (g a).domain = a.domain) :
    findByDomain (l.map g) d = (findByDomain l d).map g := by
  unfold findByDomain
  rw [List.find?_map]
  have hpred : ((fun a => a.domain == d) ∘ g) = (fun a => a.domain == d) := by
    funext a
    simp [Function.comp, hg]
  rw [hpred]

/-- The per-application updater preserves the domain field. -/
theorem updApp_domain (aid : Nat) (f : List Policy → List Policy) (a : App) :
    (updApp aid f a).domain = a.domain := by
  unfold updApp
  split <;> rfl

/-- The per-application updater preserves the identifier field. -/
theorem updApp_aid (aid : Nat) (f : List Policy → List Policy) (a : App) :
    (updApp aid f a).aid = a.aid := by
  unfold updApp
  split <;> rfl

/-- The per-application updater preserves the name field. -/
theorem updApp_name (aid : Nat) (f : List Policy → List Policy) (a : App) :
    (updApp aid f a).name = a.name := by
  unfold updApp
  split <;> rfl

/-- The updater applied to an application with the targeted identifier. -/
theorem updApp_self (aid : Nat) (f : List Policy → List Policy) (a : App)
    (h : (a.aid == aid) = true) :
    updApp aid f a = { a with policies := f a.policies } := by
  unfold updApp
  rw [if_pos h]

/-- The application identifiers of a state are unchanged by `applyToApp`. -/
theorem applyToApp_aids (st : AccState) (aid : Nat) (f : List Policy → List Policy) :
    (applyToApp st aid f).apps.map (fun x => x.aid) = st.apps.map (fun x => x.aid) := by
  unfold applyToApp
  rw [List.map_map]
  apply List.map_congr_left
  intro a _
  exact updApp_aid aid f a

/-- Two successive `applyToApp` on the same identifier compose. -/
theorem applyToApp_applyToApp (st : AccState) (aid : Nat)
    (f g : List Policy → List Policy) :
    applyToApp (applyToApp st aid f) aid g = applyToApp st aid (fun l => g (f l)) := by
  unfold applyToApp
  simp only [List.map_map]
  congr 1
  apply List.map_congr_left
  intro a _
  unfold updApp
  by_cases h : (a.aid == aid) = true <;> simp [Function.comp, h]

/-- `applyToApp` only depends on the extensional behaviour of the policy
transformation. -/
theorem applyToApp_congr (st : AccState) (aid : Nat)
    (f g : List Policy → List Policy) (h : ∀ l, f l = g l) :
    applyToApp st aid f = applyToApp st aid g := by
  unfold applyToApp
  congr 1
  apply List.map_congr_left
  intro a _
  unfold updApp
  split <;> simp [h]

/-- Replaying the same PUT on a policy list changes nothing further. -/
theorem updatePolicyIn_idem (ps : List Policy) (pid : Nat) (n d : String)
    (r : List Rule) :
    updatePolicyIn (updatePolicyIn ps pid n d r) pid n d r =
      updatePolicyIn ps pid n d r := by
  unfold updatePolicyIn
  rw [List.map_map]
  apply List.map_congr_left
  intro p _
  by_cases h : (p.pid == pid) = true <;> simp [Function.comp, h]

/-- A PUT to an identifier absent from the policy list changes nothing. -/
theorem updatePolicyIn_fresh (ps : List Policy) (pid : Nat) (n d : String)
    (r : List Rule) (h : ∀ p ∈ ps, p.pid ≠ pid) :
    updatePolicyIn ps pid n d r = ps := by
  unfold updatePolicyIn
  have h2 : ∀ p ∈ ps,
      (if p.pid == pid then { p with name := n, decision := d, includeRules := r }
       else p) = id p := by
    intro p hp
    simp [h p hp]
  rw [List.map_congr_left h2, List.map_id]

/-- A PUT that rewrites a freshly appended policy to its own fields changes
nothing. -/
theorem updatePolicyIn_append_self (ps : List Policy) (pid : Nat) (n d : String)
    (r : List Rule) (h : ∀ p ∈ ps, p.pid ≠ pid) :
    updatePolicyIn (ps ++ [Policy.mk pid n d r]) pid n d r =
      ps ++ [Policy.mk pid n d r] := by
  unfold updatePolicyIn
  rw [List.map_append]
  congr 1
  · exact updatePolicyIn_fresh ps pid n d r h
  · simp

/-- A PUT never changes the policy identifiers of the listing. -/
theorem updatePolicyIn_pids (ps : List Policy) (pid : Nat) (n d : String)
    (r : List Rule) :
    (updatePolicyIn ps pid n d r).map (fun p => p.pid) = ps.map (fun p => p.pid) := by
  unfold updatePolicyIn
  rw [List.map_map]
  apply List.map_congr_left
  intro p _
  by_cases h : (p.pid == pid) = true <;> simp [Function.comp, h]

/-- Unfolding of the name lookup on a matching head. -/
theorem findPolicyByName_cons_pos (p : Policy) (tl : List Policy) (n : String)
    (h : (p.name == n) = true) : findPolicyByName (p :: tl) n = some p := by
  unfold findPolicyByName
  exact List.find?_cons_of_pos _ h

/-- Unfolding of the name lookup on a non-matching head. -/
theorem findPolicyByName_cons_neg (p : Policy) (tl : List Policy) (n : String)
    (h : (p.name == n) = false) :
    findPolicyByName (p :: tl) n = findPolicyByName tl n := by
  unfold findPolicyByName
  exact List.find?_cons_of_neg _ (by simp [h])

/-- Unfolding of the PUT semantics on a cons cell. -/
theorem updatePolicyIn_cons (p : Policy) (tl : List Policy) (pid : Nat)
    (n d : String) (r : List Rule) :
    updatePolicyIn (p :: tl) pid n d r =
      (if (p.pid == pid) = true then Policy.mk p.pid n d r else p) ::
        updatePolicyIn tl pid n d r := rfl

/-- After a PUT that renames the first `Public Access` policy onto itself,
the name lookup still finds a policy with the same identifier, now carrying
the written fields. -/
theorem findPolicyByName_update (ps : List Policy) (ep : Policy) (d : String)
    (r : List Rule) :
    findPolicyByName ps paName = some ep →
    ∃ q, findPolicyByName (updatePolicyIn ps ep.pid paName d r) paName = some q ∧
      q.pid = ep.pid ∧ q.name = paName ∧ q.decision = d ∧ q.includeRules = r := by
  induction ps with
  | nil => intro h; simp [findPolicyByName] at h
  | cons p tl ih =>
      intro h
      by_cases hn : (p.name == paName) = true
      · rw [findPolicyByName_cons_pos p tl paName hn] at h
        have hpe : p = ep := Option.some.inj h
        subst hpe
        refine ⟨Policy.mk p.pid paName d r, ?_, rfl, rfl, rfl, rfl⟩
        rw [updatePolicyIn_cons, if_pos (beq_self_eq_true p.pid)]
        exact findPolicyByName_cons_pos _ _ _ (by simp)
      · have hn2 : (p.name == paName) = false := by simpa using hn
        rw [findPolicyByName_cons_neg p tl paName hn2] at h
        obtain ⟨q, hq, h1, h2, h3, h4⟩ := ih h
        by_cases hp : (p.pid == ep.pid) = true
        · refine ⟨Policy.mk p.pid paName d r, ?_, by simpa using hp, rfl, rfl, rfl⟩
          rw [updatePolicyIn_cons, if_pos hp]
          exact findPolicyByName_cons_pos _ _ _ (by simp)
        · refine ⟨q, ?_, h1, h2, h3, h4⟩
          rw [updatePolicyIn_cons, if_neg hp, findPolicyByName_cons_neg _ _ _ hn2]
          exact hq

/-- Two states with the same applications and the same counter are equal. -/
theorem AccState_ext (s t : AccState) (h1 : s.apps = t.apps)
    (h2 : s.nextId = t.nextId) : s = t := by
  cases s
  cases t
  congr 1

/-- The application identifiers are unchanged by a per-application update. -/
theorem map_aid_updApp (l : List App) (aid : Nat) (f : List Policy → List Policy) :
    (l.map (updApp aid f)).map (fun x => x.aid) = l.map (fun x => x.aid) := by
  rw [List.map_map]
  apply List.map_congr_left
  intro a _
  exact updApp_aid aid f a

/-- A second per-application update is absorbed when its transformation
fixes the already-updated policy lists. -/
theorem map_updApp_absorb (l : List App) (aid : Nat)
    (f g : List Policy → List Policy)
    (h : ∀ a ∈ l, g (f a.policies) = f a.policies) :
    (l.map (updApp aid f)).map (updApp aid g) = l.map (updApp aid f) := by
  rw [List.map_map]
  apply List.map_congr_left
  intro a ha
  show updApp aid g (updApp aid f a) = updApp aid f a
  by_cases hc : (a.aid == aid) = true
  · rw [updApp_self _ _ _ hc]
    have hc2 : (({ a with policies := f a.policies } : App).aid == aid) = true := by
      simpa using hc
    rw [updApp_self _ _ _ hc2]
    rw [h a ha]
  · have h1 : updApp aid f a = a := by unfold updApp; rw [if_neg hc]
    have h2 : updApp aid g a = a := by unfold updApp; rw [if_neg hc]
    rw [h1, h2]

/-- The policy identifiers of every application are unchanged by a PUT. -/
theorem map_pids_updApp_update (l : List App) (aid pid : Nat) (n d : String)
    (r : List Rule) :
    (l.map (updApp aid (fun ps => updatePolicyIn ps pid n d r))).map
        (fun a => a.policies.map (fun p => p.pid)) =
      l.map (fun a => a.policies.map (fun p => p.pid)) := by
  rw [List.map_map]
  apply List.map_congr_left
  intro a _
  show (updApp aid _ a).policies.map (fun p => p.pid) = _
  by_cases hc : (a.aid == aid) = true
  · rw [updApp_self _ _ _ hc]
    exact updatePolicyIn_pids a.policies pid n d r
  · have h1 : updApp aid (fun ps => updatePolicyIn ps pid n d r) a = a := by
      unfold updApp
      rw [if_neg hc]
    rw [h1]

/-- The public-access run reduces to the upsert step once the application is
located. -/
theorem enableMain_eq_of_find (st : AccState) (app : App)
    (h : findByDomain st.apps apiDomain = some app) :
    enableMain st = enableUpsert st app (getPoliciesOf st app.aid) := by
  unfold enableMain
  rw [h]

/-- The upsert step when a `Public Access` policy is listed: a PUT to its
identifier. -/
theorem enableUpsert_update (st : AccState) (app : App) (ps : List Policy)
    (ep : Policy) (hp : findPolicyByName ps paName = some ep) :
    enableUpsert st app ps =
      (putPolicyState st app.aid ep.pid paName bypassStr bypassIncl,
       [Op.getApps, Op.getPolicies app.aid,
        Op.putPolicy app.aid ep.pid paName bypassStr bypassIncl],
       [Msg.banner, Msg.foundApp app.name app.aid,
        Msg.currentPolicies (ps.map (fun p => p.name)),
        Msg.updatingPolicy paName, Msg.successMsg]) := by
  unfold enableUpsert
  rw [hp]

/-- The upsert step when no `Public Access` policy is listed: a POST. -/
theorem enableUpsert_create (st : AccState) (app : App) (ps : List Policy)
    (hp : findPolicyByName ps paName = none) :
    enableUpsert st app ps =
      (postPolicyState st app.aid paName bypassStr bypassIncl,
       [Op.getApps, Op.getPolicies app.aid,
        Op.postPolicy app.aid paName bypassStr bypassIncl],
       [Msg.banner, Msg.foundApp app.name app.aid,
        Msg.currentPolicies (ps.map (fun p => p.name)),
        Msg.creatingPolicy paName, Msg.successMsg]) := by
  unfold enableUpsert
  rw [hp]

/-! ### Claim C2: idempotence of the public-access enabler -/

/-- C2: for every well-formed starting state in which the target application
exists, one run of the public-access enabler leaves a `Public Access` policy
present with decision `bypass` and inclusion `everyone`, and a second run
converges to the same state: it changes nothing further. -/
theorem c2_enable_idempotent (st : AccState) (app : App)
    (hwf : wf st) (h : findByDomain st.apps apiDomain = some app) :
    (∃ a1 p1, findByDomain ((enableMain st).1).apps apiDomain = some a1 ∧
       findPolicyByName (getPoliciesOf (enableMain st).1 a1.aid) paName = some p1 ∧
       p1.decision = bypassStr ∧ p1.includeRules = bypassIncl) ∧
    (enableMain ((enableMain st).1)).1 = (enableMain st).1 := by
  obtain ⟨hnd, hab, hpnd, hpb⟩ := hwf
  have hmem : app ∈ st.apps := List.mem_of_find?_eq_some h
  have hget : getPoliciesOf st app.aid = app.policies :=
    getPoliciesOf_of_mem st app hnd hmem
  have hrun := enableMain_eq_of_find st app h
  rw [hget] at hrun
  cases hp : findPolicyByName app.policies paName with
  | some ep =>
      rw [enableUpsert_update st app app.policies ep hp] at hrun
      have h1 : (enableMain st).1 =
          putPolicyState st app.aid ep.pid paName bypassStr bypassIncl := by
        rw [hrun]
      obtain ⟨q, hq, hqpid, hqn, hqd, hqr⟩ :=
        findPolicyByName_update app.policies ep bypassStr bypassIncl hp
      have hfind1 : findByDomain
          (st.apps.map (updApp app.aid
            (fun l => updatePolicyIn l ep.pid paName bypassStr bypassIncl))) apiDomain =
          some (updApp app.aid
            (fun l => updatePolicyIn l ep.pid paName bypassStr bypassIncl) app) := by
        rw [findByDomain_map _ _ _ (updApp_domain _ _), h]
        rfl
      have hnd1 : ((st.apps.map (updApp app.aid
          (fun l => updatePolicyIn l ep.pid paName bypassStr bypassIncl))).map
            (fun x => x.aid)).Nodup := by
        rw [map_aid_updApp]
        exact hnd
      have hmem1 : updApp app.aid
          (fun l => updatePolicyIn l ep.pid paName bypassStr bypassIncl) app ∈
          st.apps.map (updApp app.aid
            (fun l => updatePolicyIn l ep.pid paName bypassStr bypassIncl)) :=
        List.mem_map_of_mem _ hmem
      have hget1 : getPoliciesOf
          (putPolicyState st app.aid ep.pid paName bypassStr bypassIncl)
          (updApp app.aid
            (fun l => updatePolicyIn l ep.pid paName bypassStr bypassIncl) app).aid =
          (updApp app.aid
            (fun l => updatePolicyIn l ep.pid paName bypassStr bypassIncl) app).policies :=
        getPoliciesOf_of_mem _ _ hnd1 hmem1
      have hps1 : (updApp app.aid
          (fun l => updatePolicyIn l ep.pid paName bypassStr bypassIncl) app).policies =
          updatePolicyIn app.policies ep.pid paName bypassStr bypassIncl := by
        rw [updApp_self _ _ _ (beq_self_eq_true _)]
      constructor
      · refine ⟨updApp app.aid
          (fun l => updatePolicyIn l ep.pid paName bypassStr bypassIncl) app, q, ?_, ?_,
          hqd, hqr⟩
        · rw [h1]
          exact hfind1
        · rw [h1, hget1, hps1]
          exact hq
      · rw [h1]
        have hrun2 := enableMain_eq_of_find
          (putPolicyState st app.aid ep.pid paName bypassStr bypassIncl)
          (updApp app.aid
            (fun l => updatePolicyIn l ep.pid paName bypassStr bypassIncl) app)
          hfind1
        rw [hget1, hps1] at hrun2
        rw [enableUpsert_update _ _ _ q hq] at hrun2
        rw [updApp_aid, hqpid] at hrun2
        rw [hrun2]
        apply AccState_ext
        · exact map_updApp_absorb st.apps app.aid _ _
            (fun a _ => updatePolicyIn_idem a.policies ep.pid paName bypassStr bypassIncl)
        · rfl
  | none =>
      rw [enableUpsert_create st app app.policies hp] at hrun
      have h1 : (enableMain st).1 =
          postPolicyState st app.aid paName bypassStr bypassIncl := by
        rw [hrun]
      have hfind1 : findByDomain
          (st.apps.map (updApp app.aid
            (fun l => l ++ [Policy.mk st.nextId paName bypassStr bypassIncl]))) apiDomain =
          some (updApp app.aid
            (fun l => l ++ [Policy.mk st.nextId paName bypassStr bypassIncl]) app) := by
        rw [findByDomain_map _ _ _ (updApp_domain _ _), h]
        rfl
      have hnd1 : ((st.apps.map (updApp app.aid
          (fun l => l ++ [Policy.mk st.nextId paName bypassStr bypassIncl]))).map
            (fun x => x.aid)).Nodup := by
        rw [map_aid_updApp]
        exact hnd
      have hmem1 : updApp app.aid
          (fun l => l ++ [Policy.mk st.nextId paName bypassStr bypassIncl]) app ∈
          st.apps.map (updApp app.aid
            (fun l => l ++ [Policy.mk st.nextId paName bypassStr bypassIncl])) :=
        List.mem_map_of_mem _ hmem
      have hget1 : getPoliciesOf
          (postPolicyState st app.aid paName bypassStr bypassIncl)
          (updApp app.aid
            (fun l => l ++ [Policy.mk st.nextId paName bypassStr bypassIncl]) app).aid =
          (updApp app.aid
            (fun l => l ++ [Policy.mk st.nextId paName bypassStr bypassIncl]) app).policies :=
        getPoliciesOf_of_mem _ _ hnd1 hmem1
      have hps1 : (updApp app.aid
          (fun l => l ++ [Policy.mk st.nextId paName bypassStr bypassIncl]) app).policies =
          app.policies ++ [Policy.mk st.nextId paName bypassStr bypassIncl] := by
        rw [updApp_self _ _ _ (beq_self_eq_true _)]
      have hfind2 : findPolicyByName
          (app.policies ++ [Policy.mk st.nextId paName bypassStr bypassIncl]) paName =
          some (Policy.mk st.nextId paName bypassStr bypassIncl) := by
        unfold findPolicyByName at hp ⊢
        rw [List.find?_append, hp]
        simp
      constructor
      · refine ⟨updApp app.aid
          (fun l => l ++ [Policy.mk st.nextId paName bypassStr bypassIncl]) app,
          Policy.mk st.nextId paName bypassStr bypassIncl, ?_, ?_, rfl, rfl⟩
        · rw [h1]
          exact hfind1
        · rw [h1, hget1, hps1]
          exact hfind2
      · rw [h1]
        have hrun2 := enableMain_eq_of_find
          (postPolicyState st app.aid paName bypassStr bypassIncl)
          (updApp app.aid
            (fun l => l ++ [Policy.mk st.nextId paName bypassStr bypassIncl]) app)
          hfind1
        rw [hget1, hps1] at hrun2
        rw [enableUpsert_update _ _ _ _ hfind2] at hrun2
        rw [updApp_aid] at hrun2
        have hnewpid : (Policy.mk st.nextId paName bypassStr bypassIncl).pid =
            st.nextId := rfl
        rw [hnewpid] at hrun2
        rw [hrun2]
        apply AccState_ext
        · exact map_updApp_absorb st.apps app.aid _ _
            (fun a ha => updatePolicyIn_append_self a.policies st.nextId paName
              bypassStr bypassIncl
              (fun p hp2 => Nat.ne_of_lt (hpb a ha p hp2)))
        · rfl

/-- Witness for C2: a concrete well-formed state whose target application
exists; the second run changes nothing further. -/
theorem c2_witness :
    wf stW2 ∧ findByDomain stW2.apps apiDomain = some appX2 ∧
    (enableMain ((enableMain stW2).1)).1 = (enableMain stW2).1 :=
  ⟨by decide, by decide, (c2_enable_idempotent stW2 appX2 (by decide) (by decide)).2⟩

/-! ### Claim C3: update-in-place, no duplicate creation -/

/-- C3: when a `Public Access` policy is already listed, the run issues a
PUT to that policy's existing identifier and no policy-creating POST, and
the policy identifiers of the state are unchanged (so no duplicate is
created and no identifier changes). -/
theorem c3_update_in_place (st : AccState) (app : App) (ep : Policy)
    (h : findByDomain st.apps apiDomain = some app)
    (hp : findPolicyByName (getPoliciesOf st app.aid) paName = some ep) :
    (enableMain st).2.1 =
      [Op.getApps, Op.getPolicies app.aid,
       Op.putPolicy app.aid ep.pid paName bypassStr bypassIncl] ∧
    (enableMain st).2.1.all (fun o => !o.isPostPolicy) = true ∧
    statePids (enableMain st).1 = statePids st := by
  have hrun := enableMain_eq_of_find st app h
  rw [enableUpsert_update st app (getPoliciesOf st app.aid) ep hp] at hrun
  refine ⟨?_, ?_, ?_⟩
  · rw [hrun]
  · rw [hrun]
    rfl
  · rw [hrun]
    unfold statePids
    congr 1
    exact map_pids_updApp_update st.apps app.aid ep.pid paName bypassStr bypassIncl

/-- Witness for C3 at a concrete state that already carries a stale
`Public Access` policy. -/
theorem c3_witness :
    findByDomain stW3.apps apiDomain = some appX3 ∧
    findPolicyByName (getPoliciesOf stW3 appX3.aid) paName = some polX3 ∧
    (enableMain stW3).2.1 =
      [Op.getApps, Op.getPolicies appX3.aid,
       Op.putPolicy appX3.aid polX3.pid paName bypassStr bypassIncl] :=
  ⟨by decide, by decide, (c3_update_in_place stW3 appX3 polX3 (by decide) (by decide)).1⟩

/-! ### Cleanup-phase helper lemmas -/

/-- `applyToApp` with the identity transformation is the identity. -/
theorem applyToApp_id (s : AccState) (aid : Nat) :
    applyToApp s aid (fun l => l) = s := by
  apply AccState_ext
  · show s.apps.map (updApp aid (fun l => l)) = s.apps
    have h : ∀ a ∈ s.apps, updApp aid (fun l => l) a = id a := by
      intro a _
      unfold updApp
      split <;> rfl
    rw [List.map_congr_left h, List.map_id]
  · rfl

/-- `applyToApp` only depends on the transformation's behaviour on the
policy lists of the targeted member applications. -/
theorem applyToApp_congr_mem (s : AccState) (aid : Nat)
    (f g : List Policy → List Policy)
    (h : ∀ a ∈ s.apps, (a.aid == aid) = true → f a.policies = g a.policies) :
    applyToApp s aid f = applyToApp s aid g := by
  apply AccState_ext
  · show s.apps.map (updApp aid f) = s.apps.map (updApp aid g)
    apply List.map_congr_left
    intro a ha
    unfold updApp
    by_cases hc : (a.aid == aid) = true
    · rw [if_pos hc, if_pos hc, h a ha hc]
    · rw [if_neg hc, if_neg hc]
  · rfl

/-- Listing the policies of an application untouched by `applyToApp`. -/
theorem getPoliciesOf_applyToApp_ne (s : AccState) (aid k : Nat)
    (f : List Policy → List Policy) (hne : ¬(k = aid)) :
    getPoliciesOf (applyToApp s aid f) k = getPoliciesOf s k := by
  unfold getPoliciesOf applyToApp
  show (match (s.apps.map (updApp aid f)).find? (fun a => a.aid == k) with
    | some a => a.policies
    | none => []) = _
  rw [List.find?_map]
  have hpred : ((fun a => a.aid == k) ∘ updApp aid f) = (fun a => a.aid == k) := by
    funext a
    simp [Function.comp, updApp_aid]
  rw [hpred]
  cases hf : s.apps.find? (fun a => a.aid == k) with
  | none => rfl
  | some a =>
      have ha2 : a.aid = k := by simpa using List.find?_some hf
      have hupd : updApp aid f a = a := by
        unfold updApp
        rw [if_neg]
        intro hcc
        apply hne
        have h3 : a.aid = aid := by simpa using hcc
        rw [← ha2, h3]
      simp [hupd]

/-- The inner cleanup loop issues exactly one DELETE per snapshot policy
whose name is the cleanup target, in order. -/
theorem cleanupPolicies_ops (aid : Nat) (ps : List Policy) (s : AccState) :
    (cleanupPolicies aid ps s).2 =
      (ps.filter (fun p => p.name == macName)).map
        (fun p => Op.deletePolicy aid p.pid) := by
  induction ps generalizing s with
  | nil => rfl
  | cons p rest ih =>
      simp only [cleanupPolicies]
      by_cases hm : (p.name == macName) = true
      · rw [if_pos hm]
        show Op.deletePolicy aid p.pid :: (cleanupPolicies aid rest _).2 = _
        rw [ih]
        have hf : (p :: rest).filter (fun p => p.name == macName) =
            p :: rest.filter (fun p => p.name == macName) := by
          rw [List.filter_cons, if_pos hm]
        rw [hf, List.map_cons]
      · rw [ite_self, if_neg hm]
        rw [ih]
        have hf : (p :: rest).filter (fun p => p.name == macName) =
            rest.filter (fun p => p.name == macName) := by
          rw [List.filter_cons, if_neg hm]
        rw [hf]

/-- The inner cleanup loop's effect on the state: it strips, from the
targeted application, every policy whose identifier is that of a
target-named policy of the snapshot. -/
theorem cleanupPolicies_state (aid : Nat) (ps : List Policy) (s : AccState) :
    (cleanupPolicies aid ps s).1 =
      applyToApp s aid (fun l => l.filter (fun x =>
        !((ps.filter (fun q => q.name == macName)).any (fun q => x.pid == q.pid)))) := by
  induction ps generalizing s with
  | nil =>
      show s = _
      rw [applyToApp_congr s aid _ (fun l => l) (fun l => by simp), applyToApp_id]
  | cons p rest ih =>
      simp only [cleanupPolicies]
      by_cases hm : (p.name == macName) = true
      · rw [if_pos hm]
        show (cleanupPolicies aid rest
          (applyToApp s aid (fun l => deletePolicyIn l p.pid))).1 = _
        rw [ih, applyToApp_applyToApp]
        apply applyToApp_congr
        intro l
        unfold deletePolicyIn
        rw [List.filter_filter]
        apply List.filter_congr
        intro x _
        rw [List.filter_cons, if_pos hm, List.any_cons]
        rw [Bool.not_or, Bool.and_comm]
      · rw [ite_self, if_neg hm]
        rw [ih]
        apply applyToApp_congr
        intro l
        apply List.filter_congr
        intro x _
        rw [List.filter_cons, if_neg hm]

/-- One cleanup iteration, on a state with distinct application identifiers
and per-application distinct policy identifiers, removes from the targeted
application exactly the policies named after the cleanup target. -/
theorem cleanupApp_state (s : AccState) (k : Nat)
    (hnd : (s.apps.map (fun x => x.aid)).Nodup)
    (hpnd : ∀ a ∈ s.apps, (a.policies.map (fun p => p.pid)).Nodup) :
    (cleanupApp s k).1 =
      applyToApp s k (fun l => l.filter (fun x => !(x.name == macName))) := by
  show (cleanupPolicies k (getPoliciesOf s k) s).1 = _
  rw [cleanupPolicies_state]
  apply applyToApp_congr_mem
  intro a ha hc
  have hk : a.aid = k := by simpa using hc
  have hget : getPoliciesOf s k = a.policies := by
    rw [← hk]
    exact getPoliciesOf_of_mem s a hnd ha
  rw [hget]
  apply List.filter_congr
  intro x hx
  by_cases hxm : (x.name == macName) = true
  · have hany : (a.policies.filter (fun q => q.name == macName)).any
        (fun q => x.pid == q.pid) = true := by
      apply List.any_eq_true.mpr
      exact ⟨x, List.mem_filter.mpr ⟨hx, hxm⟩, by simp⟩
    rw [hany, hxm]
  · have hxm2 : (x.name == macName) = false := by simpa using hxm
    have hany : (a.policies.filter (fun q => q.name == macName)).any
        (fun q => x.pid == q.pid) = false := by
      apply List.any_eq_false.mpr
      intro q hq
      obtain ⟨hq1, hq2⟩ := List.mem_filter.mp hq
      intro hpid
      have hpe : x.pid = q.pid := by simpa using hpid
      have hxq : x = q :=
        List.inj_on_of_nodup_map (hpnd a ha) hx hq1 hpe
      rw [hxq] at hxm
      exact hxm hq2
    rw [hany, hxm2]

/-- One cleanup iteration lists the policies, then deletes exactly the
target-named ones. -/
theorem cleanupApp_ops (s : AccState) (k : Nat) :
    (cleanupApp s k).2 = Op.getPolicies k ::
      ((getPoliciesOf s k).filter (fun p => p.name == macName)).map
        (fun p => Op.deletePolicy k p.pid) := by
  show Op.getPolicies k :: (cleanupPolicies k (getPoliciesOf s k) s).2 = _
  rw [cleanupPolicies_ops]

/-- Filtering policy lists preserves per-application distinctness of policy
identifiers. -/
theorem pids_nodup_applyToApp_filter (s : AccState) (k : Nat) (pfun : Policy → Bool)
    (hpnd : ∀ a ∈ s.apps, (a.policies.map (fun p => p.pid)).Nodup) :
    ∀ a ∈ (applyToApp s k (fun l => l.filter pfun)).apps,
      (a.policies.map (fun p => p.pid)).Nodup := by
  intro a ha
  obtain ⟨b, hb, hba⟩ := List.mem_map.mp ha
  rw [← hba]
  unfold updApp
  split
  · exact List.Nodup.sublist
      (List.Sublist.map _ (List.filter_sublist b.policies)) (hpnd b hb)
  · exact hpnd b hb

/-- The expected cleanup trace depends only on the policies the state lists
for the snapshot applications. -/
theorem cleanupOpsSpec_congr (s1 s2 : AccState) (l : List App)
    (h : ∀ b ∈ l, getPoliciesOf s1 b.aid = getPoliciesOf s2 b.aid) :
    cleanupOpsSpec s1 l = cleanupOpsSpec s2 l := by
  induction l with
  | nil => rfl
  | cons a rest ih =>
      simp only [cleanupOpsSpec]
      rw [h a (List.mem_cons_self a rest)]
      rw [ih (fun b hb => h b (List.mem_cons_of_mem a hb))]

/-- Characterization of the outer cleanup loop run over a snapshot with
distinct application identifiers, from a well-formed state: every snapshot
application's policies get filtered of the exactly-named target, everything
else is untouched, and the trace is one listing per application followed by
the corresponding DELETEs, computed against the starting state. -/
theorem cleanupGo_char (l : List App) (s : AccState)
    (hnd : (s.apps.map (fun x => x.aid)).Nodup)
    (hpnd : ∀ a ∈ s.apps, (a.policies.map (fun p => p.pid)).Nodup)
    (hl : (l.map (fun x => x.aid)).Nodup) :
    (cleanupGo l s).1 = AccState.mk
      (s.apps.map (fun b =>
        if l.any (fun x => b.aid == x.aid) then filterMac b else b))
      s.nextId ∧
    (cleanupGo l s).2 = cleanupOpsSpec s l := by
  induction l generalizing s with
  | nil =>
      constructor
      · show s = _
        apply AccState_ext
        · have h : ∀ b ∈ s.apps,
              (if ([] : List App).any (fun x => b.aid == x.aid) then filterMac b
               else b) = id b := fun b _ => by simp
          rw [List.map_congr_left h, List.map_id]
        · rfl
      · rfl
  | cons a rest ih =>
      rw [List.map_cons, List.nodup_cons] at hl
      have hnd1 : (((applyToApp s a.aid
          (fun l => l.filter (fun x => !(x.name == macName)))).apps).map
            (fun x => x.aid)).Nodup := by
        show ((s.apps.map (updApp _ _)).map (fun x => x.aid)).Nodup
        rw [map_aid_updApp]
        exact hnd
      have hpnd1 := pids_nodup_applyToApp_filter s a.aid
        (fun x => !(x.name == macName)) hpnd
      obtain ⟨ihs, iho⟩ := ih (applyToApp s a.aid
        (fun l => l.filter (fun x => !(x.name == macName)))) hnd1 hpnd1 hl.2
      have hstep : (cleanupApp s a.aid).1 =
          applyToApp s a.aid (fun l => l.filter (fun x => !(x.name == macName))) :=
        cleanupApp_state s a.aid hnd hpnd
      constructor
      · show (cleanupGo rest (cleanupApp s a.aid).1).1 = _
        rw [hstep, ihs]
        apply AccState_ext
        · show ((s.apps.map (updApp a.aid _)).map _) = _
          rw [List.map_map]
          apply List.map_congr_left
          intro b hb
          show (if rest.any (fun x => (updApp a.aid _ b).aid == x.aid) then
              filterMac (updApp a.aid _ b) else updApp a.aid _ b) = _
          by_cases hc : (b.aid == a.aid) = true
          · have hbid : b.aid = a.aid := by simpa using hc
            have hbu : updApp a.aid
                (fun l => l.filter (fun x => !(x.name == macName))) b =
                filterMac b := by
              rw [updApp_self _ _ _ hc]
              rfl
            rw [hbu]
            have hrest : rest.any (fun x => (filterMac b).aid == x.aid) = false := by
              apply List.any_eq_false.mpr
              intro x hx
              intro hxe
              apply hl.1
              have : (filterMac b).aid = x.aid := by simpa using hxe
              have hax : a.aid = x.aid := by
                rw [← this, ← hbid]
                rfl
              rw [hax]
              exact List.mem_map_of_mem _ hx
            rw [hrest]
            have hcons : (a :: rest).any (fun x => b.aid == x.aid) = true := by
              apply List.any_eq_true.mpr
              exact ⟨a, List.mem_cons_self a rest, hc⟩
            rw [if_neg (by simp), hcons, if_pos rfl]
          · have hbu : updApp a.aid
                (fun l => l.filter (fun x => !(x.name == macName))) b = b := by
              unfold updApp
              rw [if_neg hc]
            rw [hbu]
            have hcons : (a :: rest).any (fun x => b.aid == x.aid) =
                rest.any (fun x => b.aid == x.aid) := by
              rw [List.any_cons]
              have hcf : (b.aid == a.aid) = false := by simpa using hc
              rw [hcf, Bool.false_or]
            rw [hcons]
        · rfl
      · show (cleanupApp s a.aid).2 ++ (cleanupGo rest (cleanupApp s a.aid).1).2 = _
        rw [hstep, iho, cleanupApp_ops]
        show _ = (Op.getPolicies a.aid :: _) ++ cleanupOpsSpec s rest
        rw [List.cons_append]
        congr 1
        congr 1
        apply cleanupOpsSpec_congr
        intro b hb
        apply getPoliciesOf_applyToApp_ne
        intro hbe
        apply hl.1
        rw [← hbe]
        exact List.mem_map_of_mem _ hb

/-- Shared helper: from a well-formed state, the cleanup phase leaves every
application with exactly its non-target-named policies, and the counter
untouched. -/
theorem cleanup_state_eq (st : AccState) (hwf : wf st) :
    (cleanupGo st.apps st).1.apps = st.apps.map filterMac ∧
    (cleanupGo st.apps st).1.nextId = st.nextId := by
  obtain ⟨hnd, hab, hpnd, hpb⟩ := hwf
  obtain ⟨hs, _⟩ := cleanupGo_char st.apps st hnd hpnd hnd
  rw [hs]
  constructor
  · show st.apps.map _ = _
    apply List.map_congr_left
    intro b hb
    have hc : st.apps.any (fun x => b.aid == x.aid) = true :=
      List.any_eq_true.mpr ⟨b, hb, by simp⟩
    rw [hc, if_pos rfl]
  · rfl

/-- Membership of a DELETE in the expected cleanup trace. -/
theorem mem_cleanupOpsSpec_delete (s : AccState) (l : List App) (k pid : Nat) :
    Op.deletePolicy k pid ∈ cleanupOpsSpec s l ↔
      ∃ b ∈ l, b.aid = k ∧ ∃ q ∈ (getPoliciesOf s b.aid).filter
        (fun p => p.name == macName), q.pid = pid := by
  induction l with
  | nil => simp [cleanupOpsSpec]
  | cons a rest ih =>
      simp only [cleanupOpsSpec, List.mem_append, List.mem_cons, List.mem_map, ih]
      constructor
      · intro h
        rcases h with (h | ⟨q, hq, he⟩) | ⟨b, hb, hbk, q, hq, hqp⟩
        · exact absurd h (by simp)
        · obtain ⟨h1, h2⟩ := Op.deletePolicy.inj he
          exact ⟨a, Or.inl rfl, h1, q, hq, h2⟩
        · exact ⟨b, Or.inr hb, hbk, q, hq, hqp⟩
      · intro h
        rcases h with ⟨b, hb | hb, hbk, q, hq, hqp⟩
        · subst hb
          exact Or.inl (Or.inr ⟨q, hq, by rw [hbk, hqp]⟩)
        · exact Or.inr ⟨b, hb, hbk, q, hq, hqp⟩

/-- Shared helper: from a well-formed state, the cleanup phase issues a
DELETE for a listed policy exactly when its name is the cleanup target. -/
theorem cleanup_delete_iff (st : AccState) (hwf : wf st) (a : App) (p : Policy)
    (ha : a ∈ st.apps) (hp : p ∈ a.policies) :
    (Op.deletePolicy a.aid p.pid ∈ (cleanupGo st.apps st).2 ↔ p.name = macName) := by
  obtain ⟨hnd, hab, hpnd, hpb⟩ := hwf
  obtain ⟨_, ho⟩ := cleanupGo_char st.apps st hnd hpnd hnd
  rw [ho, mem_cleanupOpsSpec_delete]
  constructor
  · rintro ⟨b, hb, hbk, q, hq, hqp⟩
    have hba : b = a := List.inj_on_of_nodup_map hnd hb ha hbk
    subst hba
    rw [getPoliciesOf_of_mem st b hnd hb] at hq
    obtain ⟨hq1, hq2⟩ := List.mem_filter.mp hq
    have hqp2 : q = p := List.inj_on_of_nodup_map (hpnd b hb) hq1 hp hqp
    rw [hqp2] at hq2
    simpa using hq2
  · intro hm
    refine ⟨a, ha, rfl, p, ?_, rfl⟩
    rw [getPoliciesOf_of_mem st a hnd ha]
    exact List.mem_filter.mpr ⟨hp, by simp [hm]⟩

/-! ### Claim C5: cleanup deletes exactly the target-named policies -/

/-- C5: from a well-formed state, the cleanup phase issues a DELETE for a
listed policy if and only if its name is exactly the target string, and
afterwards every application's policy list is exactly its original list with
the target-named policies removed (everything else untouched). -/
theorem c5_cleanup_exact_name (st : AccState) (hwf : wf st) :
    (cleanupGo st.apps st).1.apps = st.apps.map filterMac ∧
    (∀ a ∈ st.apps, ∀ p ∈ a.policies,
      (Op.deletePolicy a.aid p.pid ∈ (cleanupGo st.apps st).2 ↔ p.name = macName)) :=
  ⟨(cleanup_state_eq st hwf).1,
   fun a ha p hp => cleanup_delete_iff st hwf a p ha hp⟩

/-- Witness for C5 at a concrete state carrying both a target-named policy
and an unrelated one. -/
theorem c5_witness :
    wf stW5 ∧ (cleanupGo stW5.apps stW5).1.apps = stW5.apps.map filterMac :=
  ⟨by decide, (c5_cleanup_exact_name stW5 (by decide)).1⟩

/-! ### Claim C8: the secondary matching branch is a no-op -/

/-- C8: a policy whose name matches the secondary condition (contains
`bypass` and `ip` case-insensitively) but is not exactly the cleanup target
gets no DELETE issued for it and survives the cleanup phase unchanged. -/
theorem c8_dead_branch_noop (st : AccState) (a : App) (p : Policy)
    (hwf : wf st) (ha : a ∈ st.apps) (hp : p ∈ a.policies)
    (hsec : secondaryMatch p.name = true) (hne : ¬(p.name = macName)) :
    (Op.deletePolicy a.aid p.pid ∉ (cleanupGo st.apps st).2) ∧
    filterMac a ∈ (cleanupGo st.apps st).1.apps ∧ (filterMac a).aid = a.aid ∧
    p ∈ (filterMac a).policies := by
  refine ⟨?_, ?_, rfl, ?_⟩
  · intro hmem
    exact hne ((cleanup_delete_iff st hwf a p ha hp).mp hmem)
  · rw [(cleanup_state_eq st hwf).1]
    exact List.mem_map_of_mem _ ha
  · exact List.mem_filter.mpr ⟨hp, by simp [hne]⟩

/-- Witness for C8 at a concrete state with an `Home IP Bypass` policy: the
secondary condition holds, the exact name does not, and no DELETE for it is
issued. -/
theorem c8_witness :
    wf stW8 ∧ secondaryMatch polX8.name = true ∧ ¬(polX8.name = macName) ∧
    (Op.deletePolicy appX8.aid polX8.pid ∉ (cleanupGo stW8.apps stW8).2) :=
  ⟨by decide, by decide, by decide,
   (c8_dead_branch_noop stW8 appX8 polX8 (by decide) (by decide) (by decide)
     (by decide) (by decide)).1⟩

/-! ### Claim C7: unguarded null listing responses -/

/-- When the policy listing for the application at position `i` of the
iteration returns `None` (and the earlier ones succeed), the fallible
cleanup loop raises `TypeError` there: its trace is exactly the trace of the
successful processing of the first `i` applications plus the failing listing
request, and nothing is ever done for the remaining applications. -/
theorem cleanupGoF_aborts (fail : Nat → Bool) (i : Nat) :
    ∀ (n : Nat) (l : List App) (s : AccState),
    (∀ j, j < i → fail (n + j) = false) → fail (n + i) = true →
    ∀ (hlen : i < l.length),
    cleanupGoF fail n l s = (Except.error PyExc.typeError,
      (cleanupGo (l.take i) s).2 ++ [Op.getPolicies (l.get ⟨i, hlen⟩).aid]) := by
  induction i with
  | zero =>
      intro n l s h0 hfi hlen
      cases l with
      | nil => simp at hlen
      | cons a rest =>
          have hfn : fail n = true := by simpa using hfi
          simp only [cleanupGoF]
          rw [hfn]
          rfl
  | succ i ih =>
      intro n l s h0 hfi hlen
      cases l with
      | nil => simp at hlen
      | cons a rest =>
          have hf0 : fail n = false := by simpa using h0 0 (Nat.succ_pos i)
          have h0s : ∀ j, j < i → fail (n + 1 + j) = false := by
            intro j hj
            have h := h0 (j + 1) (by omega)
            have he : n + (j + 1) = n + 1 + j := by omega
            rw [he] at h
            exact h
          have hfis : fail (n + 1 + i) = true := by
            have he : n + (i + 1) = n + 1 + i := by omega
            rw [he] at hfi
            exact hfi
          have hlens : i < rest.length := by
            simpa using Nat.lt_of_succ_lt_succ hlen
          have ih2 := ih (n + 1) rest
            (cleanupPolicies a.aid (getPoliciesOf s a.aid) s).1 h0s hfis hlens
          simp only [cleanupGoF]
          rw [hf0]
          show ((cleanupGoF fail (n + 1) rest
              (cleanupPolicies a.aid (getPoliciesOf s a.aid) s).1).1,
            Op.getPolicies a.aid ::
              ((cleanupPolicies a.aid (getPoliciesOf s a.aid) s).2 ++
                (cleanupGoF fail (n + 1) rest
                  (cleanupPolicies a.aid (getPoliciesOf s a.aid) s).1).2)) = _
          rw [ih2]
          have hrhs : (cleanupGo ((a :: rest).take (i + 1)) s).2 =
              (cleanupApp s a.aid).2 ++
                (cleanupGo (rest.take i) (cleanupApp s a.aid).1).2 := by
            rw [List.take_succ_cons]
            rfl
          rw [hrhs]
          have hget : (a :: rest).get ⟨i + 1, hlen⟩ =
              rest.get ⟨i, hlens⟩ := rfl
          rw [hget, List.append_assoc]
          rfl

/-- C7: a null listing response is never guarded: the public-access enabler
crashes with `TypeError` when its application listing returns `None`
(whatever the rest of the run would do), and in the bulk-cleanup phase a
null policy listing for one application raises there and aborts the entire
remaining iteration — the trace stops at the failing request. -/
theorem c7_null_listing_unguarded :
    (∀ (b : Bool) (st : AccState),
        enableMainF true b st = Except.error PyExc.typeError) ∧
    (∀ (fail : Nat → Bool) (i : Nat) (l : List App) (st : AccState)
        (hlen : i < l.length),
        (∀ j, j < i → fail j = false) → fail i = true →
        cleanupGoF fail 0 l st = (Except.error PyExc.typeError,
          (cleanupGo (l.take i) st).2 ++ [Op.getPolicies (l.get ⟨i, hlen⟩).aid])) := by
  constructor
  · intro b st
    rfl
  · intro fail i l st hlen h0 hfi
    exact cleanupGoF_aborts fail i 0 l st
      (fun j hj => by simpa using h0 j hj) (by simpa using hfi) hlen

/-- Witness for C7: three applications, the policy listing of the one at
position 1 fails; the run errors out and the third application is never
processed. -/
theorem c7_witness :
    (∀ j, j < 1 → failW j = false) ∧ failW 1 = true ∧
    cleanupGoF failW 0 lW7 stW7 = (Except.error PyExc.typeError,
      (cleanupGo (lW7.take 1) stW7).2 ++
        [Op.getPolicies (lW7.get ⟨1, by decide⟩).aid]) :=
  ⟨by decide, by decide,
   c7_null_listing_unguarded.2 failW 1 lW7 stW7 (by decide) (by decide) (by decide)⟩

/-! ### Phase-1 helper lemmas for the zero-trust fixer -/

/-- Creating a policy preserves the server invariants. -/
theorem wf_postPolicyState (st : AccState) (aid : Nat) (n d : String)
    (r : List Rule) (hwf : wf st) : wf (postPolicyState st aid n d r) := by
  obtain ⟨hnd, hab, hpnd, hpb⟩ := hwf
  refine ⟨?_, ?_, ?_, ?_⟩
  · show ((st.apps.map (updApp aid
      (fun l => l ++ [Policy.mk st.nextId n d r]))).map (fun x => x.aid)).Nodup
    rw [map_aid_updApp]
    exact hnd
  · intro a ha
    have ha2 : a ∈ st.apps.map (updApp aid
      (fun l => l ++ [Policy.mk st.nextId n d r])) := ha
    obtain ⟨b, hb, hba⟩ := List.mem_map.mp ha2
    rw [← hba]
    show (updApp aid _ b).aid < st.nextId + 1
    rw [updApp_aid]
    exact Nat.lt_succ_of_lt (hab b hb)
  · intro a ha
    have ha2 : a ∈ st.apps.map (updApp aid
      (fun l => l ++ [Policy.mk st.nextId n d r])) := ha
    obtain ⟨b, hb, hba⟩ := List.mem_map.mp ha2
    rw [← hba]
    unfold updApp
    split
    · show ((b.policies ++ [Policy.mk st.nextId n d r]).map (fun p => p.pid)).Nodup
      rw [List.map_append, List.nodup_append]
      refine ⟨hpnd b hb, by simp, ?_⟩
      intro x hx hy
      simp only [List.map_cons, List.map_nil, List.mem_singleton] at hy
      obtain ⟨p, hp, hpe⟩ := List.mem_map.mp hx
      have hlt := hpb b hb p hp
      rw [hpe, hy] at hlt
      exact absurd hlt (Nat.lt_irrefl _)
    · exact hpnd b hb
  · intro a ha p hp
    have ha2 : a ∈ st.apps.map (updApp aid
      (fun l => l ++ [Policy.mk st.nextId n d r])) := ha
    obtain ⟨b, hb, hba⟩ := List.mem_map.mp ha2
    rw [← hba] at hp
    show p.pid < st.nextId + 1
    unfold updApp at hp
    split at hp
    · have hp2 : p ∈ b.policies ++ [Policy.mk st.nextId n d r] := hp
      rcases List.mem_append.mp hp2 with h | h
      · exact Nat.lt_succ_of_lt (hpb b hb p h)
      · have hpe : p = Policy.mk st.nextId n d r := by simpa using h
        rw [hpe]
        exact Nat.lt_succ_self _
    · exact Nat.lt_succ_of_lt (hpb b hb p hp)

/-- Creating the studio application preserves the server invariants. -/
theorem wf_postStudioApp (st : AccState) (hwf : wf st) :
    wf (AccState.mk (st.apps ++ [App.mk st.nextId studioAppName studioDomain []])
      (st.nextId + 1)) := by
  obtain ⟨hnd, hab, hpnd, hpb⟩ := hwf
  refine ⟨?_, ?_, ?_, ?_⟩
  · show ((st.apps ++ [App.mk st.nextId studioAppName studioDomain []]).map
      (fun x => x.aid)).Nodup
    rw [List.map_append, List.nodup_append]
    refine ⟨hnd, by simp, ?_⟩
    intro x hx hy
    simp only [List.map_cons, List.map_nil, List.mem_singleton] at hy
    obtain ⟨b, hb, hbe⟩ := List.mem_map.mp hx
    have hlt := hab b hb
    rw [hbe, hy] at hlt
    exact absurd hlt (Nat.lt_irrefl _)
  · intro a ha
    have ha2 : a ∈ st.apps ++ [App.mk st.nextId studioAppName studioDomain []] := ha
    show a.aid < st.nextId + 1
    rcases List.mem_append.mp ha2 with h | h
    · exact Nat.lt_succ_of_lt (hab a h)
    · have hae : a = App.mk st.nextId studioAppName studioDomain [] := by simpa using h
      rw [hae]
      exact Nat.lt_succ_self _
  · intro a ha
    have ha2 : a ∈ st.apps ++ [App.mk st.nextId studioAppName studioDomain []] := ha
    rcases List.mem_append.mp ha2 with h | h
    · exact hpnd a h
    · have hae : a = App.mk st.nextId studioAppName studioDomain [] := by simpa using h
      rw [hae]
      simp
  · intro a ha p hp
    have ha2 : a ∈ st.apps ++ [App.mk st.nextId studioAppName studioDomain []] := ha
    show p.pid < st.nextId + 1
    rcases List.mem_append.mp ha2 with h | h
    · exact Nat.lt_succ_of_lt (hpb a h p hp)
    · have hae : a = App.mk st.nextId studioAppName studioDomain [] := by simpa using h
      rw [hae] at hp
      simp at hp

/-- Effect of one policy-creating POST on the located studio application:
the domain lookup now finds the updated application, a member of the new
state, whose policy list is the old one with the created policy appended. -/
theorem post_ensures (st : AccState) (app : App) (n d : String) (r : List Rule)
    (hfd : findByDomain st.apps studioDomain = some app) :
    findByDomain ((postPolicyState st app.aid n d r).apps) studioDomain =
      some (updApp app.aid (fun l => l ++ [Policy.mk st.nextId n d r]) app) ∧
    updApp app.aid (fun l => l ++ [Policy.mk st.nextId n d r]) app ∈
      (postPolicyState st app.aid n d r).apps ∧
    (updApp app.aid (fun l => l ++ [Policy.mk st.nextId n d r]) app).policies =
      app.policies ++ [Policy.mk st.nextId n d r] ∧
    (updApp app.aid (fun l => l ++ [Policy.mk st.nextId n d r]) app).aid = app.aid := by
  refine ⟨?_, ?_, ?_, updApp_aid _ _ _⟩
  · show findByDomain (st.apps.map _) studioDomain = _
    rw [findByDomain_map _ _ _ (updApp_domain _ _), hfd]
    rfl
  · exact List.mem_map_of_mem _ (List.mem_of_find?_eq_some hfd)
  · rw [updApp_self _ _ _ (beq_self_eq_true _)]

/-- After the policy-provisioning step on the located studio application,
the domain lookup finds an application carrying both allow-policy names, and
the state is still well-formed. -/
theorem fixPolicies_ensures (st : AccState) (app : App) (ops0 : List Op)
    (hwf : wf st)
    (hfd : findByDomain st.apps studioDomain = some app) :
    ∃ app2, findByDomain ((fixPolicies st app.aid ops0).1).apps studioDomain =
        some app2 ∧
      app2 ∈ ((fixPolicies st app.aid ops0).1).apps ∧
      app2.policies.any (fun p => p.name == aaName) = true ∧
      app2.policies.any (fun p => p.name == asName) = true ∧
      wf (fixPolicies st app.aid ops0).1 := by
  have hmem : app ∈ st.apps := List.mem_of_find?_eq_some hfd
  have hget : getPoliciesOf st app.aid = app.policies :=
    getPoliciesOf_of_mem st app hwf.1 hmem
  by_cases c1 : (getPoliciesOf st app.aid).any (fun p => p.name == aaName) = true <;>
    by_cases c2 : (getPoliciesOf st app.aid).any (fun p => p.name == asName) = true
  · have hstate : (fixPolicies st app.aid ops0).1 = st := by
      simp only [fixPolicies]
      rw [if_pos c1, if_pos c2]
    rw [hget] at c1 c2
    rw [hstate]
    exact ⟨app, hfd, hmem, c1, c2, hwf⟩
  · have hstate : (fixPolicies st app.aid ops0).1 =
        postPolicyState st app.aid asName allowStr serviceIncl := by
      simp only [fixPolicies]
      rw [if_pos c1, if_neg c2]
    rw [hget] at c1
    obtain ⟨hfdB, hmemB, hpsB, haidB⟩ :=
      post_ensures st app asName allowStr serviceIncl hfd
    rw [hstate]
    refine ⟨_, hfdB, hmemB, ?_, ?_, wf_postPolicyState st app.aid _ _ _ hwf⟩
    · rw [hpsB]
      simp [List.any_append, c1]
    · rw [hpsB]
      simp [List.any_append]
  · have hstate : (fixPolicies st app.aid ops0).1 =
        postPolicyState st app.aid aaName allowStr adminIncl := by
      simp only [fixPolicies]
      rw [if_neg c1, if_pos c2]
    rw [hget] at c2
    obtain ⟨hfdB, hmemB, hpsB, haidB⟩ :=
      post_ensures st app aaName allowStr adminIncl hfd
    rw [hstate]
    refine ⟨_, hfdB, hmemB, ?_, ?_, wf_postPolicyState st app.aid _ _ _ hwf⟩
    · rw [hpsB]
      simp [List.any_append]
    · rw [hpsB]
      simp [List.any_append, c2]
  · have hstate : (fixPolicies st app.aid ops0).1 =
        postPolicyState (postPolicyState st app.aid aaName allowStr adminIncl)
          app.aid asName allowStr serviceIncl := by
      simp only [fixPolicies]
      rw [if_neg c1, if_neg c2]
    obtain ⟨hfdA, hmemA, hpsA, haidA⟩ :=
      post_ensures st app aaName allowStr adminIncl hfd
    obtain ⟨hfdB, hmemB, hpsB, haidB⟩ :=
      post_ensures (postPolicyState st app.aid aaName allowStr adminIncl)
        (updApp app.aid (fun l => l ++ [Policy.mk st.nextId aaName allowStr adminIncl])
          app)
        asName allowStr serviceIncl hfdA
    rw [haidA] at hfdB hmemB hpsB
    rw [hstate]
    refine ⟨_, hfdB, hmemB, ?_, ?_, wf_postPolicyState _ app.aid _ _ _
      (wf_postPolicyState st app.aid _ _ _ hwf)⟩
    · rw [hpsB, hpsA]
      simp [List.any_append]
    · rw [hpsB]
      simp [List.any_append]

/-- When no application has the studio domain, appending the freshly created
application makes the domain lookup find it. -/
theorem findByDomain_append_studio (st : AccState)
    (hfd : findByDomain st.apps studioDomain = none) :
    findByDomain (st.apps ++ [App.mk st.nextId studioAppName studioDomain []])
      studioDomain = some (App.mk st.nextId studioAppName studioDomain []) := by
  unfold findByDomain at hfd ⊢
  rw [List.find?_append, hfd]
  simp

/-- After phase 1 of the zero-trust fixer, the studio application exists and
carries both allow-policy names, and the state is well-formed. -/
theorem fixPhase1_ensures (st : AccState) (hwf : wf st) :
    ∃ app2, findByDomain ((fixPhase1 st).1).apps studioDomain = some app2 ∧
      app2 ∈ ((fixPhase1 st).1).apps ∧
      app2.policies.any (fun p => p.name == aaName) = true ∧
      app2.policies.any (fun p => p.name == asName) = true ∧
      wf (fixPhase1 st).1 := by
  cases hfd : findByDomain st.apps studioDomain with
  | some studio =>
      have hstate : fixPhase1 st = fixPolicies st studio.aid [Op.getApps] := by
        unfold fixPhase1
        rw [hfd]
      rw [hstate]
      exact fixPolicies_ensures st studio [Op.getApps] hwf hfd
  | none =>
      have hstate : fixPhase1 st = fixPolicies
          (AccState.mk (st.apps ++ [App.mk st.nextId studioAppName studioDomain []])
            (st.nextId + 1))
          st.nextId
          [Op.getApps,
           Op.postApp studioAppName studioDomain selfHostedStr sessionStr] := by
        unfold fixPhase1
        rw [hfd]
      rw [hstate]
      exact fixPolicies_ensures
        (AccState.mk (st.apps ++ [App.mk st.nextId studioAppName studioDomain []])
          (st.nextId + 1))
        (App.mk st.nextId studioAppName studioDomain [])
        [Op.getApps, Op.postApp studioAppName studioDomain selfHostedStr sessionStr]
        (wf_postStudioApp st hwf)
        (findByDomain_append_studio st hfd)

/-- Surviving the cleanup filter: a policy name other than the cleanup
target is still listed afterwards. -/
theorem any_name_filterMac (ps : List Policy) (n : String)
    (h : ps.any (fun p => p.name == n) = true) (hne : ¬(n = macName)) :
    (ps.filter (fun p => !(p.name == macName))).any (fun p => p.name == n) = true := by
  obtain ⟨p, hp, hpn⟩ := List.any_eq_true.mp h
  apply List.any_eq_true.mpr
  refine ⟨p, List.mem_filter.mpr ⟨hp, ?_⟩, hpn⟩
  have hpe : p.name = n := by simpa using hpn
  simp [hpe, hne]

/-- The cleanup phase preserves the studio application, its allow-policy
names, and well-formedness. -/
theorem cleanup_preserves_ensures (s : AccState) (hwf : wf s) (app2 : App)
    (hfd : findByDomain s.apps studioDomain = some app2)
    (haa : app2.policies.any (fun p => p.name == aaName) = true)
    (has : app2.policies.any (fun p => p.name == asName) = true) :
    ∃ app3, findByDomain ((cleanupGo s.apps s).1).apps studioDomain = some app3 ∧
      app3 ∈ ((cleanupGo s.apps s).1).apps ∧
      app3.policies.any (fun p => p.name == aaName) = true ∧
      app3.policies.any (fun p => p.name == asName) = true ∧
      wf (cleanupGo s.apps s).1 := by
  obtain ⟨hst, hnx⟩ := cleanup_state_eq s hwf
  obtain ⟨hnd, hab, hpnd, hpb⟩ := hwf
  refine ⟨filterMac app2, ?_, ?_, ?_, ?_, ?_, ?_, ?_, ?_⟩
  · rw [hst, findByDomain_map s.apps filterMac studioDomain (fun a => rfl), hfd]
    rfl
  · rw [hst]
    exact List.mem_map_of_mem _ (List.mem_of_find?_eq_some hfd)
  · exact any_name_filterMac app2.policies aaName haa (by decide)
  · exact any_name_filterMac app2.policies asName has (by decide)
  · rw [hst, List.map_map]
    have h : ∀ a ∈ s.apps, ((fun x => x.aid) ∘ filterMac) a = a.aid := fun a _ => rfl
    rw [List.map_congr_left h]
    exact hnd
  · intro a ha
    rw [hnx]
    rw [hst] at ha
    obtain ⟨b, hb, hba⟩ := List.mem_map.mp ha
    rw [← hba]
    show b.aid < s.nextId
    exact hab b hb
  · intro a ha
    rw [hst] at ha
    obtain ⟨b, hb, hba⟩ := List.mem_map.mp ha
    rw [← hba]
    show ((b.policies.filter _).map (fun p => p.pid)).Nodup
    exact List.Nodup.sublist (List.Sublist.map _ (List.filter_sublist _)) (hpnd b hb)
  · intro a ha p hp
    rw [hnx]
    rw [hst] at ha
    obtain ⟨b, hb, hba⟩ := List.mem_map.mp ha
    rw [← hba] at hp
    exact hpb b hb p (List.mem_of_mem_filter hp)

/-- The policy-provisioning step never adds an application-creating POST to
the trace. -/
theorem fixPolicies_any_postApp (st : AccState) (aid : Nat) (ops0 : List Op) :
    (fixPolicies st aid ops0).2.any Op.isPostApp = ops0.any Op.isPostApp := by
  simp only [fixPolicies]
  by_cases c1 : (getPoliciesOf st aid).any (fun p => p.name == aaName) = true <;>
    by_cases c2 : (getPoliciesOf st aid).any (fun p => p.name == asName) = true <;>
      simp [c1, c2, List.any_append, Op.isPostApp]

/-- The policy-provisioning step posts an allow policy of a given name
exactly when the (stale) listing lacks that name. -/
theorem fixPolicies_any_named (st : AccState) (aid : Nat) (ops0 : List Op) :
    ((fixPolicies st aid ops0).2.any (Op.isPostPolicyNamed aaName) =
      (ops0.any (Op.isPostPolicyNamed aaName) ||
        !((getPoliciesOf st aid).any (fun p => p.name == aaName)))) ∧
    ((fixPolicies st aid ops0).2.any (Op.isPostPolicyNamed asName) =
      (ops0.any (Op.isPostPolicyNamed asName) ||
        !((getPoliciesOf st aid).any (fun p => p.name == asName)))) := by
  have haa : (aaName == aaName) = true := by decide
  have has : (asName == asName) = true := by decide
  have haas : (aaName == asName) = false := by decide
  have hasa : (asName == aaName) = false := by decide
  constructor <;>
  · simp only [fixPolicies]
    by_cases c1 : (getPoliciesOf st aid).any (fun p => p.name == aaName) = true <;>
      by_cases c2 : (getPoliciesOf st aid).any (fun p => p.name == asName) = true <;>
        simp [c1, c2, List.any_append, Op.isPostPolicyNamed, haa, has, haas, hasa]

/-- When both allow policies are already listed, the provisioning step
changes nothing and only issues the listing request. -/
theorem fixPolicies_present (st : AccState) (aid : Nat) (ops0 : List Op)
    (c1 : (getPoliciesOf st aid).any (fun p => p.name == aaName) = true)
    (c2 : (getPoliciesOf st aid).any (fun p => p.name == asName) = true) :
    (fixPolicies st aid ops0).1 = st ∧
    (fixPolicies st aid ops0).2 = ops0 ++ [Op.getPolicies aid] := by
  simp only [fixPolicies]
  rw [if_pos c1, if_pos c2]
  exact ⟨rfl, rfl⟩

/-- Every operation of the provisioning trace is an inherited one, the
listing request, or one of the two allow-policy POSTs. -/
theorem fixPolicies_ops_mem (st : AccState) (aid : Nat) (ops0 : List Op) :
    ∀ o ∈ (fixPolicies st aid ops0).2, o ∈ ops0 ∨ o = Op.getPolicies aid ∨
      o = Op.postPolicy aid aaName allowStr adminIncl ∨
      o = Op.postPolicy aid asName allowStr serviceIncl := by
  intro o ho
  simp only [fixPolicies] at ho
  by_cases c1 : (getPoliciesOf st aid).any (fun p => p.name == aaName) = true <;>
    by_cases c2 : (getPoliciesOf st aid).any (fun p => p.name == asName) = true
  · rw [if_pos c1, if_pos c2] at ho
    simp only [List.mem_append, List.mem_cons] at ho
    tauto
  · rw [if_pos c1, if_neg c2] at ho
    simp only [List.mem_append, List.mem_cons] at ho
    tauto
  · rw [if_neg c1, if_pos c2] at ho
    simp only [List.mem_append, List.mem_cons] at ho
    tauto
  · rw [if_neg c1, if_neg c2] at ho
    simp only [List.mem_append, List.mem_cons] at ho
    tauto

/-- Every operation of the phase-1 trace is the listing request, the
application-creating POST, a policy listing, or an allow-policy POST. -/
theorem fixPhase1_ops_mem (st : AccState) :
    ∀ o ∈ (fixPhase1 st).2, o = Op.getApps ∨
      o = Op.postApp studioAppName studioDomain selfHostedStr sessionStr ∨
      (∃ aid, o = Op.getPolicies aid) ∨
      (∃ aid, o = Op.postPolicy aid aaName allowStr adminIncl) ∨
      (∃ aid, o = Op.postPolicy aid asName allowStr serviceIncl) := by
  intro o ho
  cases hfd : findByDomain st.apps studioDomain with
  | some studio =>
      have hstate : fixPhase1 st = fixPolicies st studio.aid [Op.getApps] := by
        unfold fixPhase1
        rw [hfd]
      rw [hstate] at ho
      rcases fixPolicies_ops_mem st studio.aid [Op.getApps] o ho with h | h | h | h
      · simp only [List.mem_singleton] at h
        exact Or.inl h
      · exact Or.inr (Or.inr (Or.inl ⟨studio.aid, h⟩))
      · exact Or.inr (Or.inr (Or.inr (Or.inl ⟨studio.aid, h⟩)))
      · exact Or.inr (Or.inr (Or.inr (Or.inr ⟨studio.aid, h⟩)))
  | none =>
      have hstate : fixPhase1 st = fixPolicies
          (AccState.mk (st.apps ++ [App.mk st.nextId studioAppName studioDomain []])
            (st.nextId + 1))
          st.nextId
          [Op.getApps,
           Op.postApp studioAppName studioDomain selfHostedStr sessionStr] := by
        unfold fixPhase1
        rw [hfd]
      rw [hstate] at ho
      rcases fixPolicies_ops_mem _ st.nextId _ o ho with h | h | h | h
      · simp only [List.mem_cons, List.mem_singleton] at h
        rcases h with h | h | h
        · exact Or.inl h
        · exact Or.inr (Or.inl h)
        · cases h
      · exact Or.inr (Or.inr (Or.inl ⟨st.nextId, h⟩))
      · exact Or.inr (Or.inr (Or.inr (Or.inl ⟨st.nextId, h⟩)))
      · exact Or.inr (Or.inr (Or.inr (Or.inr ⟨st.nextId, h⟩)))

/-- The cleanup loop issues only listings and DELETEs. -/
theorem cleanupGo_ops_shape (l : List App) (s : AccState) :
    ∀ o ∈ (cleanupGo l s).2,
      o.isPostApp = false ∧ o.isPostPolicy = false ∧ o.isPutPolicy = false := by
  induction l generalizing s with
  | nil => intro o ho; cases ho
  | cons a rest ih =>
      intro o ho
      rw [show (cleanupGo (a :: rest) s).2 =
        (cleanupApp s a.aid).2 ++ (cleanupGo rest (cleanupApp s a.aid).1).2
        from rfl] at ho
      rcases List.mem_append.mp ho with h | h
      · rw [cleanupApp_ops] at h
        rcases List.mem_cons.mp h with h | h
        · rw [h]
          exact ⟨rfl, rfl, rfl⟩
        · obtain ⟨q, hq, hqe⟩ := List.mem_map.mp h
          rw [← hqe]
          exact ⟨rfl, rfl, rfl⟩
      · exact ih _ o h

/-- Listing the policies of the freshly created studio application returns
the empty list. -/
theorem getPoliciesOf_studio_create (st : AccState) (hwf : wf st) :
    getPoliciesOf
      (AccState.mk (st.apps ++ [App.mk st.nextId studioAppName studioDomain []])
        (st.nextId + 1)) st.nextId = [] := by
  unfold getPoliciesOf
  have h1 : (st.apps ++ [App.mk st.nextId studioAppName studioDomain []]).find?
      (fun a => a.aid == st.nextId) =
      some (App.mk st.nextId studioAppName studioDomain []) := by
    rw [List.find?_append]
    have h2 : st.apps.find? (fun a => a.aid == st.nextId) = none :=
      List.find?_eq_none.mpr (fun x hx => by simp [Nat.ne_of_lt (hwf.2.1 x hx)])
    rw [h2]
    simp
  rw [h1]

/-- A run of the zero-trust fixer from a well-formed state in which the
studio application exists and already lists both allow-policy names creates
no application and no policy. -/
theorem fixMain_no_creates_of_ensured (s2 : AccState) (app3 : App)
    (hwf3 : wf s2)
    (hfd3 : findByDomain s2.apps studioDomain = some app3)
    (hmem3 : app3 ∈ s2.apps)
    (haa3 : app3.policies.any (fun p => p.name == aaName) = true)
    (has3 : app3.policies.any (fun p => p.name == asName) = true) :
    (fixMain s2).2.all (fun o => !(o.isPostApp || o.isPostPolicy)) = true := by
  have hget3 : getPoliciesOf s2 app3.aid = app3.policies :=
    getPoliciesOf_of_mem s2 app3 hwf3.1 hmem3
  have hc1 : (getPoliciesOf s2 app3.aid).any (fun p => p.name == aaName) = true := by
    rw [hget3]
    exact haa3
  have hc2 : (getPoliciesOf s2 app3.aid).any (fun p => p.name == asName) = true := by
    rw [hget3]
    exact has3
  have hstate : fixPhase1 s2 = fixPolicies s2 app3.aid [Op.getApps] := by
    unfold fixPhase1
    rw [hfd3]
  obtain ⟨hs2, ht2⟩ := fixPolicies_present s2 app3.aid [Op.getApps] hc1 hc2
  apply List.all_eq_true.mpr
  intro o ho
  rw [show (fixMain s2).2 = (fixPhase1 s2).2 ++ Op.getApps ::
    (cleanupGo (fixPhase1 s2).1.apps (fixPhase1 s2).1).2 from rfl] at ho
  rw [hstate, ht2, hs2] at ho
  rcases List.mem_append.mp ho with h | h
  · simp only [List.mem_append, List.mem_singleton] at h
    rcases h with h | h <;> (rw [h]; rfl)
  · rcases List.mem_cons.mp h with h | h
    · rw [h]
      rfl
    · obtain ⟨hpa, hpp, _⟩ := cleanupGo_ops_shape s2.apps s2 o h
      rw [hpa, hpp]
      rfl

/-! ### Claim C4: the zero-trust fixer creates only what is absent -/

/-- C4: from a well-formed state, the first phase of the zero-trust fixer
creates the application exactly when no listed application has the studio
domain; when the application is present, an allow policy of a given name is
posted exactly when the listing lacks that name, and when it is absent both
allow policies are posted (against the fresh empty listing); no policy is
ever updated (no PUT in the whole run); and a second full run creates
neither the application nor any policy again. -/
theorem c4_provision_once (st : AccState) (hwf : wf st) :
    ((fixPhase1 st).2.any Op.isPostApp = true ↔
      findByDomain st.apps studioDomain = none) ∧
    ((fixMain st).2.all (fun o => !o.isPutPolicy) = true) ∧
    (∀ studio, findByDomain st.apps studioDomain = some studio →
      (((fixPhase1 st).2.any (Op.isPostPolicyNamed aaName) = true) ↔
        ¬((getPoliciesOf st studio.aid).any (fun p => p.name == aaName) = true)) ∧
      (((fixPhase1 st).2.any (Op.isPostPolicyNamed asName) = true) ↔
        ¬((getPoliciesOf st studio.aid).any (fun p => p.name == asName) = true))) ∧
    (findByDomain st.apps studioDomain = none →
      (fixPhase1 st).2.any (Op.isPostPolicyNamed aaName) = true ∧
      (fixPhase1 st).2.any (Op.isPostPolicyNamed asName) = true) ∧
    ((fixMain ((fixMain st).1)).2.all
      (fun o => !(o.isPostApp || o.isPostPolicy)) = true) := by
  refine ⟨?_, ?_, ?_, ?_, ?_⟩
  · cases hfd : findByDomain st.apps studioDomain with
    | some studio =>
        have hstate : fixPhase1 st = fixPolicies st studio.aid [Op.getApps] := by
          unfold fixPhase1
          rw [hfd]
        rw [hstate, fixPolicies_any_postApp]
        simp [Op.isPostApp]
    | none =>
        have hstate : fixPhase1 st = fixPolicies
            (AccState.mk
              (st.apps ++ [App.mk st.nextId studioAppName studioDomain []])
              (st.nextId + 1))
            st.nextId
            [Op.getApps,
             Op.postApp studioAppName studioDomain selfHostedStr sessionStr] := by
          unfold fixPhase1
          rw [hfd]
        rw [hstate, fixPolicies_any_postApp]
        simp [Op.isPostApp]
  · apply List.all_eq_true.mpr
    intro o ho
    rw [show (fixMain st).2 = (fixPhase1 st).2 ++ Op.getApps ::
      (cleanupGo (fixPhase1 st).1.apps (fixPhase1 st).1).2 from rfl] at ho
    rcases List.mem_append.mp ho with h | h
    · rcases fixPhase1_ops_mem st o h with h | h | ⟨aid, h⟩ | ⟨aid, h⟩ | ⟨aid, h⟩ <;>
        (rw [h]; rfl)
    · rcases List.mem_cons.mp h with h | h
      · rw [h]
        rfl
      · have hput := (cleanupGo_ops_shape _ _ o h).2.2
        rw [hput]
        rfl
  · intro studio hfd
    have hstate : fixPhase1 st = fixPolicies st studio.aid [Op.getApps] := by
      unfold fixPhase1
      rw [hfd]
    constructor
    · rw [hstate, (fixPolicies_any_named st studio.aid [Op.getApps]).1]
      simp [Op.isPostPolicyNamed]
    · rw [hstate, (fixPolicies_any_named st studio.aid [Op.getApps]).2]
      simp [Op.isPostPolicyNamed]
  · intro hfd
    have hstate : fixPhase1 st = fixPolicies
        (AccState.mk (st.apps ++ [App.mk st.nextId studioAppName studioDomain []])
          (st.nextId + 1))
        st.nextId
        [Op.getApps,
         Op.postApp studioAppName studioDomain selfHostedStr sessionStr] := by
      unfold fixPhase1
      rw [hfd]
    constructor
    · rw [hstate, (fixPolicies_any_named _ st.nextId _).1,
        getPoliciesOf_studio_create st hwf]
      simp [Op.isPostPolicyNamed]
    · rw [hstate, (fixPolicies_any_named _ st.nextId _).2,
        getPoliciesOf_studio_create st hwf]
      simp [Op.isPostPolicyNamed]
  · obtain ⟨app2, hfd2, hmem2, haa2, has2, hwf2⟩ := fixPhase1_ensures st hwf
    obtain ⟨app3, hfd3, hmem3, haa3, has3, hwf3⟩ :=
      cleanup_preserves_ensures (fixPhase1 st).1 hwf2 app2 hfd2 haa2 has2
    have hT : (fixMain st).1 =
        (cleanupGo (fixPhase1 st).1.apps (fixPhase1 st).1).1 := rfl
    rw [hT]
    exact fixMain_no_creates_of_ensured _ app3 hwf3 hfd3 hmem3 haa3 has3

/-- Witness for C4 at the empty state: the first run creates the
application (lookup is none), and the second run creates nothing. -/
theorem c4_witness :
    wf stW4 ∧
    (fixPhase1 stW4).2.any Op.isPostApp = true ∧
    (fixMain ((fixMain stW4).1)).2.all
      (fun o => !(o.isPostApp || o.isPostPolicy)) = true :=
  ⟨by decide, (c4_provision_once stW4 (by decide)).1.mpr rfl,
   (c4_provision_once stW4 (by decide)).2.2.2.2⟩
